import Mathlib

/-!
# Creative diary (`script.js`): observer, notes store, validator, search

A shallow embedding of the modules of `script.js` (`Observer`, `NotesModule`,
`ValidatorModule`, the search page of `AppModule`) and the properties of its
specification.

Conventions of the embedding.

* A JavaScript string is the list of its UTF-16 code units (`Str`), so that
  `length`, `slice`, `indexOf` and `includes` count what JavaScript counts.
* Code that can raise returns the state it leaves behind together with the
  exception it raised, if any; `try`/`catch` is `JS.tryCatch`, or a `match` on the
  result of the call inside the `try`.
* The clock is an argument: `NotesModule.add` takes the value of `Date.now()`.
* `localStorage` is the entry under the one key the program uses, described by what
  `JSON.parse` makes of it; a write is accepted and reads back as the value written.
* Built-ins whose full definition is a large table or a whole engine
  (`toLowerCase`, `RegExp`) are fields of `Builtins`, which the functions of the
  program take as a parameter. `JS.engine lower upper` is the modelled RegExp engine
  over any case tables; `JS.ecma` is that engine with case tables defined on a few
  alphabets, and is used only where a statement is about concrete text of these
  alphabets.
* The page is described by the text its elements show: `escapeHtml` exists to make
  the markup written by the program show exactly the text passed to it. Where the
  program writes unescaped text as markup (the highlighter), the element is described
  only for a text without markup characters.
-/

set_option autoImplicit false

/-! ## JavaScript strings -/

/-- A JavaScript string: its UTF-16 code units. -/
abbrev Str := List Nat

namespace JS

/-- UTF-16 encoding of one Unicode scalar value. -/
def utf16Char (c : Char) : List Nat :=
  if c.toNat < 0x10000 then [c.toNat]
  else [0xD800 + (c.toNat - 0x10000) / 0x400, 0xDC00 + (c.toNat - 0x10000) % 0x400]

/-- The JavaScript string denoted by a string literal. -/
def utf16 (s : String) : Str := s.toList.flatMap utf16Char

/-- WhiteSpace and LineTerminator code units, the ones `String.prototype.trim` strips. -/
def isWhiteSpace (u : Nat) : Bool :=
  u == 9 || u == 10 || u == 11 || u == 12 || u == 13 || u == 32 || u == 0xA0 ||
  u == 0x1680 || (0x2000 ≤ u && u ≤ 0x200A) || u == 0x2028 || u == 0x2029 ||
  u == 0x202F || u == 0x205F || u == 0x3000 || u == 0xFEFF

/-- `s.trimStart()`. -/
def trimStart (s : Str) : Str := s.dropWhile isWhiteSpace

/-- `s.trim()`. -/
def trim (s : Str) : Str := (trimStart (trimStart s).reverse).reverse

/-- `s.startsWith(p)`. -/
def startsWith : Str → Str → Bool
  | _, [] => true
  | [], _ :: _ => false
  | c :: s, d :: p => c == d && startsWith s p

/-- `s.includes(p)`. -/
def includes : Str → Str → Bool
  | [], p => p.isEmpty
  | c :: s, p => startsWith (c :: s) p || includes s p

/-- Search loop of `indexOf`: `i` is the index of the first unit of `s` in the whole string. -/
def indexOfFrom (p : Str) : Str → Nat → Int
  | [], i => if p.isEmpty then (i : Int) else -1
  | c :: s, i => if startsWith (c :: s) p then (i : Int) else indexOfFrom p s (i + 1)

/-- `s.indexOf(p)`: the first index at which `p` occurs in `s`, or `-1`. -/
def indexOf (s p : Str) : Int := indexOfFrom p s 0

/-- Decimal digits of a natural number, as `String(n)` prints them. -/
def decimalNat (n : Nat) : Str := (Nat.toDigits 10 n).map Char.toNat

/-- `String(n)` for an integer `n`. -/
def decimal : Int → Str
  | Int.ofNat n => decimalNat n
  | Int.negSucc n => 45 :: decimalNat (n + 1)

end JS

/-! ## Exceptions and control flow -/

/-- What a `throw` carries. -/
inductive Exn
  | typeError (what : String)
  | parseError (what : String)
  | storageError (what : String)
  | thrown (tag : Nat)
deriving DecidableEq, Repr

/-- Run `body`; if it raises, run `handler` on the exception in the state `body` left:
`try { body } catch (e) { handler(e) }`. -/
def JS.tryCatch {S : Type} (body : S → S × Option Exn) (handler : Exn → S → S × Option Exn)
    (s : S) : S × Option Exn :=
  match body s with
  | (s', none) => (s', none)
  | (s', some e) => handler e s'

/-- `xs.forEach(f)`: calls `f` on the elements in order; an exception raised by `f`
ends the loop and is raised by `forEach`. -/
def JS.forEach {α S : Type} (f : α → S → S × Option Exn) : List α → S → S × Option Exn
  | [], s => (s, none)
  | x :: xs, s =>
    match f x s with
    | (s', none) => JS.forEach f xs s'
    | (s', some e) => (s', some e)

/-- What the handlers and the console can touch: the rest of the page (`world`)
and the list of values passed to `console.error`, oldest first. -/
structure Env (W : Type) where
  world : W
  console : List Exn

/-- `console.error(e)`. -/
def JS.consoleError {W : Type} (e : Exn) (s : Env W) : Env W × Option Exn :=
  ({ s with console := s.console ++ [e] }, none)

/-! ## Observer -/

namespace Observer

/-- A subscriber `fn`: called with the payload it changes the page and then either
returns (`none`) or raises. -/
abbrev Handler (W P : Type) := P → W → W × Option Exn

/-- The value of `ev[name]`. -/
inductive Slot (W P : Type)
  | fns (hs : List (Handler W P))
  | inheritedMember

/-- Property names that the object literal `{}` inherits from `Object.prototype`;
each of them is a function or an object: truthy, and without `push` or `forEach`. -/
def objectPrototypeKeys : List Str :=
  [JS.utf16 "constructor", JS.utf16 "__defineGetter__", JS.utf16 "__defineSetter__",
   JS.utf16 "hasOwnProperty", JS.utf16 "__lookupGetter__", JS.utf16 "__lookupSetter__",
   JS.utf16 "isPrototypeOf", JS.utf16 "propertyIsEnumerable", JS.utf16 "toString",
   JS.utf16 "valueOf", JS.utf16 "__proto__", JS.utf16 "toLocaleString"]

/-- The object `ev`: the arrays stored by `subscribe`, latest binding of a name first.
(A failed `subscribe` stores back the inherited value it read, which changes no
later lookup, so only arrays are recorded.) -/
structure Registry (W P : Type) where
  own : List (Str × List (Handler W P))

/-- `const ev = {}`. -/
def empty {W P : Type} : Registry W P := ⟨[]⟩

/-- `ev[name]`: an own property, else a member of `Object.prototype`, else `undefined`. -/
def get {W P : Type} (ev : Registry W P) (name : Str) : Option (Slot W P) :=
  match ev.own.lookup name with
  | some hs => some (.fns hs)
  | none => if name ∈ objectPrototypeKeys then some .inheritedMember else none

/-- `subscribe: (name, fn) => { (ev[name] = ev[name] || []).push(fn); }`. -/
def subscribe {W P : Type} (name : Str) (fn : Handler W P) (ev : Registry W P) :
    Registry W P × Option Exn :=
  match get ev name with
  | some (.fns hs) => (⟨(name, hs ++ [fn]) :: ev.own⟩, none)
  | none => (⟨(name, [fn]) :: ev.own⟩, none)
  | some .inheritedMember => (ev, some (.typeError "(ev[name] = ev[name] || []).push is not a function"))

/-- The call `fn(data)` inside `publish`. -/
def call {W P : Type} (data : P) (fn : Handler W P) (s : Env W) : Env W × Option Exn :=
  match fn data s.world with
  | (w, r) => ({ s with world := w }, r)

/-- `publish: (name, data) => { (ev[name] || []).forEach(fn => { try{ fn(data); }catch(e){console.error(e)} }); }`. -/
def publish {W P : Type} (name : Str) (data : P) (ev : Registry W P) (s : Env W) :
    Env W × Option Exn :=
  match get ev name with
  | some (.fns hs) => JS.forEach (fun fn => JS.tryCatch (call data fn) JS.consoleError) hs s
  | none => JS.forEach (fun fn => JS.tryCatch (call data fn) JS.consoleError) [] s
  | some .inheritedMember => (s, some (.typeError "(ev[name] || []).forEach is not a function"))

/-- A series of `subscribe(name, fn)` calls, in order; a call that raises leaves `ev` as it was. -/
def subscribeAll {W P : Type} (subs : List (Str × Handler W P)) (ev : Registry W P) :
    Registry W P :=
  subs.foldl (fun ev sub => (subscribe sub.1 sub.2 ev).1) ev

end Observer

/-- The publish of the specification: every handler of the list runs once, in order, on
the page left by the previous one; what a handler raises goes to the console. -/
def Spec.runInOrder {W P : Type} (data : P) : List (Observer.Handler W P) → Env W → Env W
  | [], s => s
  | h :: hs, s =>
    match h data s.world with
    | (w, none) => Spec.runInOrder data hs { s with world := w }
    | (w, some e) => Spec.runInOrder data hs { world := w, console := s.console ++ [e] }

/-! ## JSON values and the storage backend -/

/-- A JSON value as `JSON.parse` returns it. Numbers are the integers (identifiers and
clock readings are integers); fractional numbers are outside the embedding. -/
inductive JVal
  | null
  | bool (b : Bool)
  | num (n : Int)
  | str (s : Str)
  | arr (xs : List JVal)
  | obj (kvs : List (Str × JVal))

namespace JVal

/-- ToBoolean: what `v || ...` tests. -/
def truthy : JVal → Bool
  | null => false
  | bool b => b
  | num n => n != 0
  | str s => !s.isEmpty
  | arr _ => true
  | obj _ => true

/-- The property read `n.id` on a JSON value: raises on `null`, is `undefined` (`none`)
when the value has no such property. -/
def getId : JVal → Except Exn (Option JVal)
  | null => .error (.typeError "Cannot read properties of null (reading 'id')")
  | obj kvs => .ok (kvs.lookup (JS.utf16 "id"))
  | _ => .ok none

/-- Strict equality `a === b` between a property value (`none` is `undefined`) and a value
`b`. Primitives compare by value; an array or object parsed from storage is a fresh
reference, identical to nothing the caller holds. -/
def strictEq : Option JVal → JVal → Bool
  | some null, null => true
  | some (bool a), bool b => a == b
  | some (num a), num b => a == b
  | some (str a), str b => a == b
  | _, _ => false

end JVal

/-- `o[k] = v` on the own properties of a plain object, in insertion order. -/
def setProp (o : List (Str × JVal)) (k : Str) (v : JVal) : List (Str × JVal) :=
  if o.any (fun kv => kv.1 == k) then o.map (fun kv => if kv.1 == k then (k, v) else kv)
  else o ++ [(k, v)]

/-- `Object.assign(target, src)` on plain objects. -/
def objectAssign (target src : List (Str × JVal)) : List (Str × JVal) :=
  src.foldl (fun t kv => setProp t kv.1 kv.2) target

/-- The entry of `localStorage` under `STORAGE_KEY`, described by what
`JSON.parse(localStorage.getItem(STORAGE_KEY))` does with it. -/
inductive Stored
  | unreadable
  | absent
  | malformed (text : Str)
  | json (v : JVal)

/-- `JSON.parse(localStorage.getItem(STORAGE_KEY))`: raises when the backend refuses the
read or the text is not JSON; a missing entry reads as `null`, which parses to `null`. -/
def parseStored : Stored → Except Exn JVal
  | .unreadable => .error (.storageError "localStorage.getItem")
  | .absent => .ok .null
  | .malformed _ => .error (.parseError "JSON.parse")
  | .json v => .ok v

/-- `localStorage.setItem(STORAGE_KEY, JSON.stringify(v))`: the entry then parses back
to `v`. A backend that refuses reads refuses writes. -/
def setStored (v : JVal) : Stored → Except Exn Stored
  | .unreadable => .error (.storageError "localStorage.setItem")
  | _ => .ok (.json v)

/-! ## NotesModule -/

/-- The note built by the submit handler of the notes form:
`{ title, content, mood, created }`. -/
structure NoteDraft where
  title : Str
  content : Str
  mood : Str
  created : Str

/-- The object literal of the submit handler. -/
def NoteDraft.toObj (d : NoteDraft) : List (Str × JVal) :=
  [(JS.utf16 "title", .str d.title), (JS.utf16 "content", .str d.content),
   (JS.utf16 "mood", .str d.mood), (JS.utf16 "created", .str d.created)]

namespace NotesModule

/-- Everything the module reads and writes: the storage entry, the observer's registry and
the page with its console. -/
structure State (W : Type) where
  storage : Stored
  ev : Observer.Registry W JVal
  env : Env W

/-- `_read`: `try { return JSON.parse(localStorage.getItem(STORAGE_KEY)) || []; } catch(e){ return []; }`. -/
def _read (st : Stored) : Except Exn JVal :=
  match (parseStored st).map (fun v => if v.truthy then v else JVal.arr []) with
  | .ok v => .ok v
  | .error _ => .ok (JVal.arr [])

/-- `_write(arr)`. -/
def _write (arr : JVal) (st : Stored) : Except Exn Stored := setStored arr st

/-- `list()`. -/
def list (st : Stored) : Except Exn JVal := _read st

/-- The name of the change event, `'notes:changed'`. -/
def notesChanged : Str := JS.utf16 "notes:changed"

/-- `add(note)`, with `now` the value of `Date.now()` at the call. -/
def add {W : Type} (now : Int) (note : List (Str × JVal)) (s : State W) :
    State W × Option Exn :=
  match _read s.storage with
  | .error e => (s, some e)
  | .ok (.arr xs) =>
    let arr := JVal.arr
      (JVal.obj (objectAssign (objectAssign [] note) [(JS.utf16 "id", .num now)]) :: xs)
    match _write arr s.storage with
    | .error e => (s, some e)
    | .ok st =>
      match Observer.publish notesChanged arr s.ev s.env with
      | (env, r) => ({ s with storage := st, env := env }, r)
  | .ok _ => (s, some (.typeError "arr.unshift is not a function"))

/-- `arr.filter(n => n.id !== id)`: the callback raises when an element is `null`. -/
def filterOthers (id : JVal) : List JVal → Except Exn (List JVal)
  | [] => .ok []
  | n :: ns =>
    match n.getId with
    | .error e => .error e
    | .ok v =>
      match filterOthers id ns with
      | .error e => .error e
      | .ok rest => .ok (if JVal.strictEq v id then rest else n :: rest)

/-- `remove(id)`. -/
def remove {W : Type} (id : JVal) (s : State W) : State W × Option Exn :=
  match _read s.storage with
  | .error e => (s, some e)
  | .ok (.arr xs) =>
    match filterOthers id xs with
    | .error e => (s, some e)
    | .ok kept =>
      match _write (.arr kept) s.storage with
      | .error e => (s, some e)
      | .ok st =>
        match Observer.publish notesChanged (.arr kept) s.ev s.env with
        | (env, r) => ({ s with storage := st, env := env }, r)
  | .ok _ => (s, some (.typeError "arr.filter is not a function"))

/-- `clear()`. -/
def clear {W : Type} (s : State W) : State W × Option Exn :=
  match _write (.arr []) s.storage with
  | .error e => (s, some e)
  | .ok st =>
    match Observer.publish notesChanged (.arr []) s.ev s.env with
    | (env, r) => ({ s with storage := st, env := env }, r)

/-- A series of `add` calls, each with the clock reading at its call; it stops at the
first call that raises. -/
def addAll {W : Type} : List (Int × List (Str × JVal)) → State W → State W × Option Exn
  | [], s => (s, none)
  | (now, note) :: rest, s =>
    match add now note s with
    | (s', none) => addAll rest s'
    | (s', some e) => (s', some e)

/-- The `id` property of an element of a collection (`none`: no such property). -/
def idOf : JVal → Option JVal
  | .obj kvs => kvs.lookup (JS.utf16 "id")
  | _ => none

/-- The `id` properties of the elements of a collection, in order. -/
def ids (xs : List JVal) : List (Option JVal) := xs.map idOf

end NotesModule

/-! ## Built-ins modelled on a fragment: case mapping and `RegExp`

The case tables `toLowerUnit` and `toUpperUnit` are exact on Basic Latin, Latin-1
Supplement and the Cyrillic letters U+0400 to U+045F, U+0490, U+0491, and leave every other
code unit unchanged; statements that use them are about text of these alphabets. The
engine itself takes the upper-case table as an argument.

The pattern reader covers pattern characters, `.`, `^`, `$`, `|`, capturing groups, the
greedy quantifiers `*`, `+`, `?`, identity escapes, and classes of characters and ranges.
A pattern using anything else (braces, lazy quantifiers, `(?`, an escaped letter or digit)
is answered with `Failure.unsupported`; nothing proved below rests on that answer. -/

namespace JS

/-- Lower-case mapping of one code unit. -/
def toLowerUnit (u : Nat) : Nat :=
  if 0x41 ≤ u ∧ u ≤ 0x5A then u + 0x20
  else if 0xC0 ≤ u ∧ u ≤ 0xDE ∧ u ≠ 0xD7 then u + 0x20
  else if 0x400 ≤ u ∧ u ≤ 0x40F then u + 0x50
  else if 0x410 ≤ u ∧ u ≤ 0x42F then u + 0x20
  else if u = 0x490 then 0x491
  else u

/-- `s.toLowerCase()` on the modelled alphabets. -/
def toLowerCase (s : Str) : Str := s.map toLowerUnit

/-- Upper-case mapping of one code unit, where the result is one code unit. -/
def toUpperUnit (u : Nat) : Nat :=
  if 0x61 ≤ u ∧ u ≤ 0x7A then u - 0x20
  else if u = 0xB5 then 0x39C
  else if 0xE0 ≤ u ∧ u ≤ 0xFE ∧ u ≠ 0xF7 then u - 0x20
  else if u = 0xFF then 0x178
  else if 0x430 ≤ u ∧ u ≤ 0x44F then u - 0x20
  else if 0x450 ≤ u ∧ u ≤ 0x45F then u - 0x50
  else if u = 0x491 then 0x490
  else u

/-- Canonicalize of the RegExp semantics (no `u` flag): with `ignoreCase` a code unit is
compared through its upper-case form, except that a non-ASCII unit never folds to ASCII.
`upper` is the upper-case table: it gives the upper-case form of a code unit when that
form is one code unit, and the code unit itself otherwise. -/
def canonicalize (upper : Nat → Nat) (ignoreCase : Bool) (u : Nat) : Nat :=
  if ignoreCase then
    if 128 ≤ u ∧ upper u < 128 then u else upper u
  else u

namespace RegExp

/-- A parsed pattern. In `cls`, every range is a pair of bounds, both included. -/
inductive Node
  | empty
  | char (u : Nat)
  | any
  | cls (negated : Bool) (ranges : List (Nat × Nat))
  | bol
  | eol
  | seq (a b : Node)
  | alt (a b : Node)
  | group (index : Nat) (a : Node)
  | star (a : Node)
  | plus (a : Node)
  | opt (a : Node)
deriving DecidableEq, Repr

/-- Why no pattern object is produced: a SyntaxError with its description, or a construct
outside the fragment. -/
inductive Failure
  | invalid (message : String)
  | unsupported
deriving DecidableEq, Repr

/-- A disjunction being read: the group it belongs to (0 for the whole pattern), its
finished alternatives and the terms of the current one (latest first), whether the latest
term may take a quantifier, whether it just took one, and whether the group was just
opened. -/
structure Frame where
  index : Nat
  alts : List Node
  terms : List Node
  quantifiable : Bool
  quantified : Bool
  opened : Bool
deriving DecidableEq, Repr

/-- Where the reader is: between terms, after a backslash, or inside a class (just after
its bracket, negated, ranges read so far latest first, a character that may still begin a
range, a dash seen after it, after a backslash). -/
inductive Mode
  | normal
  | escape
  | cls (first negated : Bool) (ranges : List (Nat × Nat)) (pending : Option Nat)
      (dash escape : Bool)
deriving DecidableEq, Repr

/-- State of the reader: enclosing disjunctions, the current one, the mode and the number
of groups opened so far. -/
structure PState where
  stack : List Frame
  top : Frame
  mode : Mode
  groups : Nat
deriving DecidableEq, Repr

/-- An empty disjunction. -/
def newFrame (index : Nat) (opened : Bool) : Frame := ⟨index, [], [], false, false, opened⟩

/-- Before the first code unit. -/
def start : PState := ⟨[], newFrame 0 false, .normal, 0⟩

/-- ASCII letters and digits: after a backslash they are not identity escapes. -/
def isAsciiAlnum (u : Nat) : Bool :=
  (48 ≤ u && u ≤ 57) || (65 ≤ u && u ≤ 90) || (97 ≤ u && u ≤ 122)

/-- The alternative made of the terms read (latest first). -/
def mkSeq (terms : List Node) : Node := terms.foldl (fun acc t => Node.seq t acc) Node.empty

/-- The disjunction of the finished alternatives (latest first) and the last one. -/
def mkAlt (alts : List Node) (last : Node) : Node := alts.foldl (fun acc a => Node.alt a acc) last

/-- The node of a disjunction once it is closed. -/
def Frame.node (f : Frame) : Node := mkAlt f.alts (mkSeq f.terms)

/-- Append a term to the current alternative. -/
def Frame.push (f : Frame) (t : Node) (quantifiable : Bool) : Frame :=
  { f with terms := t :: f.terms, quantifiable := quantifiable, quantified := false,
           opened := false }

/-- Append a term and return between terms. -/
def pushTerm (s : PState) (t : Node) (quantifiable : Bool) : PState :=
  { s with top := s.top.push t quantifiable, mode := .normal }

/-- Apply a quantifier to the latest term. -/
def quantify (s : PState) (q : Node → Node) : Except Failure PState :=
  match s.top.terms with
  | t :: ts =>
    if s.top.quantifiable then
      .ok { s with top := { s.top with terms := q t :: ts, quantifiable := false,
                                       quantified := true } }
    else .error (.invalid "Nothing to repeat")
  | [] => .error (.invalid "Nothing to repeat")

/-- A class atom `u` read inside a class: it closes a range, or becomes the character that
may begin one. -/
def classAtom (negated : Bool) (ranges : List (Nat × Nat)) (pending : Option Nat)
    (dash : Bool) (u : Nat) : Except Failure Mode :=
  match pending, dash with
  | some lo, true =>
    if lo ≤ u then .ok (.cls false negated ((lo, u) :: ranges) none false false)
    else .error (.invalid "Range out of order in character class")
  | some x, false => .ok (.cls false negated ((x, x) :: ranges) (some u) false false)
  | none, _ => .ok (.cls false negated ranges (some u) false false)

/-- The ranges of a class at its closing bracket (latest first). -/
def classRanges (ranges : List (Nat × Nat)) (pending : Option Nat) (dash : Bool) :
    List (Nat × Nat) :=
  let withPending := match pending with
    | some x => (x, x) :: ranges
    | none => ranges
  if dash then (45, 45) :: withPending else withPending

/-- Read one code unit of the pattern. -/
def step (s : PState) (u : Nat) : Except Failure PState :=
  match s.mode with
  | .normal =>
    if u = 92 then .ok { s with mode := .escape }
    else if u = 40 then
      .ok { s with stack := s.top :: s.stack, top := newFrame (s.groups + 1) true,
                   groups := s.groups + 1 }
    else if u = 41 then
      match s.stack with
      | [] => .error (.invalid "Unmatched ')'")
      | f :: fs =>
        .ok { s with stack := fs, top := f.push (.group s.top.index s.top.node) true }
    else if u = 124 then
      .ok { s with top := { s.top with alts := mkSeq s.top.terms :: s.top.alts, terms := [],
                                       quantifiable := false, quantified := false,
                                       opened := false } }
    else if u = 42 then quantify s .star
    else if u = 43 then quantify s .plus
    else if u = 63 then
      if s.top.opened || s.top.quantified then .error .unsupported else quantify s .opt
    else if u = 46 then .ok (pushTerm s .any true)
    else if u = 94 then .ok (pushTerm s .bol false)
    else if u = 36 then .ok (pushTerm s .eol false)
    else if u = 91 then .ok { s with mode := .cls true false [] none false false }
    else if u = 123 then .error .unsupported
    else .ok (pushTerm s (.char u) true)
  | .escape =>
    if isAsciiAlnum u then .error .unsupported else .ok (pushTerm s (.char u) true)
  | .cls first negated ranges pending dash escape =>
    if escape then
      if isAsciiAlnum u then .error .unsupported
      else (classAtom negated ranges pending dash u).map (fun m => { s with mode := m })
    else if u = 92 then .ok { s with mode := .cls false negated ranges pending dash true }
    else if u = 93 then
      .ok (pushTerm s (.cls negated (classRanges ranges pending dash).reverse) true)
    else if u = 94 ∧ first then .ok { s with mode := .cls false true ranges pending dash false }
    else if u = 45 ∧ pending.isSome ∧ !dash then
      .ok { s with mode := .cls false negated ranges pending true false }
    else (classAtom negated ranges pending dash u).map (fun m => { s with mode := m })

/-- At the end of the pattern: the node and the number of groups. -/
def finish (s : PState) : Except Failure (Node × Nat) :=
  match s.mode with
  | .normal =>
    match s.stack with
    | [] => .ok (s.top.node, s.groups)
    | _ :: _ => .error (.invalid "Unterminated group")
  | .escape => .error (.invalid "\\ at end of pattern")
  | .cls _ _ _ _ _ _ => .error (.invalid "Unterminated character class")

/-- Read the code units left of a pattern. -/
def parseFrom : PState → Str → Except Failure (Node × Nat)
  | s, [] => finish s
  | s, u :: us =>
    match step s u with
    | .ok s' => parseFrom s' us
    | .error e => .error e

/-- Read a pattern. -/
def parse (pattern : Str) : Except Failure (Node × Nat) := parseFrom start pattern

/-- The texts captured by the groups, by group number. -/
abbrev Captures := List (Nat × Str)

/-- What is left to match after a node: it receives the index reached, the input left and
the captures, and answers with the end of the whole match. -/
abbrev Cont := Nat → Str → Captures → Option (Nat × Captures)

/-- The numbers of the groups inside a node. -/
def groupsIn : Node → List Nat
  | .seq a b => groupsIn a ++ groupsIn b
  | .alt a b => groupsIn a ++ groupsIn b
  | .group i a => i :: groupsIn a
  | .star a => groupsIn a
  | .plus a => groupsIn a
  | .opt a => groupsIn a
  | _ => []

/-- Line terminators, which `.` does not match. -/
def isLineTerminator (u : Nat) : Bool := u == 10 || u == 13 || u == 0x2028 || u == 0x2029

/-- Membership of a code unit in the ranges of a class, up to case when asked. -/
def inClass (upper : Nat → Nat) (ignoreCase : Bool) (ranges : List (Nat × Nat)) (u : Nat) :
    Bool :=
  ranges.any (fun r =>
    (List.range (r.2 + 1 - r.1)).any
      (fun i => canonicalize upper ignoreCase (r.1 + i) == canonicalize upper ignoreCase u))

/-- Greedy repetition of `body`, zero or more times: each round forgets the captures of
the groups inside the body, and a round that consumes nothing is given up. -/
def star (body : Nat → Str → Captures → Cont → Option (Nat × Captures)) (inner : List Nat) :
    Nat → Nat → Str → Captures → Cont → Option (Nat × Captures)
  | 0, pos, rest, caps, k => k pos rest caps
  | fuel + 1, pos, rest, caps, k =>
    match body pos rest (caps.filter (fun c => !inner.contains c.1))
        (fun p r c => if p = pos then none else star body inner fuel p r c k) with
    | some res => some res
    | none => k pos rest caps

/-- Backtracking matcher: match the node at index `pos`, where `rest` is the input from
`pos` on, then what `k` asks for. -/
def run (upper : Nat → Nat) (ignoreCase : Bool) :
    Node → Nat → Str → Captures → Cont → Option (Nat × Captures)
  | .empty, pos, rest, caps, k => k pos rest caps
  | .char u, pos, rest, caps, k =>
    match rest with
    | c :: r =>
      if canonicalize upper ignoreCase c = canonicalize upper ignoreCase u then k (pos + 1) r caps
      else none
    | [] => none
  | .any, pos, rest, caps, k =>
    match rest with
    | c :: r => if isLineTerminator c then none else k (pos + 1) r caps
    | [] => none
  | .cls negated ranges, pos, rest, caps, k =>
    match rest with
    | c :: r => if inClass upper ignoreCase ranges c != negated then k (pos + 1) r caps else none
    | [] => none
  | .bol, pos, rest, caps, k => if pos = 0 then k pos rest caps else none
  | .eol, pos, rest, caps, k => if rest.isEmpty then k pos rest caps else none
  | .seq a b, pos, rest, caps, k =>
    run upper ignoreCase a pos rest caps (fun p r c => run upper ignoreCase b p r c k)
  | .alt a b, pos, rest, caps, k =>
    match run upper ignoreCase a pos rest caps k with
    | some res => some res
    | none => run upper ignoreCase b pos rest caps k
  | .group i a, pos, rest, caps, k =>
    run upper ignoreCase a pos rest caps
      (fun p r c => k p r ((i, rest.take (p - pos)) :: c.filter (fun x => x.1 != i)))
  | .star a, pos, rest, caps, k =>
    star (run upper ignoreCase a) (groupsIn a) (rest.length + 1) pos rest caps k
  | .plus a, pos, rest, caps, k =>
    run upper ignoreCase a pos rest (caps.filter (fun c => !(groupsIn a).contains c.1))
      (fun p r c => star (run upper ignoreCase a) (groupsIn a) (r.length + 1) p r c k)
  | .opt a, pos, rest, caps, k =>
    match run upper ignoreCase a pos rest (caps.filter (fun c => !(groupsIn a).contains c.1))
        (fun p r c => if p = pos then none else k p r c) with
    | some res => some res
    | none => k pos rest caps

/-- One match attempt at index `pos`: the end index and the captures. -/
def matchAt (upper : Nat → Nat) (ignoreCase : Bool) (n : Node) (pos : Nat) (rest : Str) :
    Option (Nat × Captures) :=
  run upper ignoreCase n pos rest [] (fun p _ c => some (p, c))

/-- A RegExp object: the pattern, its number of groups, and the flags `i` and `g`. -/
structure Compiled where
  node : Node
  groups : Nat
  ignoreCase : Bool
  global : Bool
deriving DecidableEq, Repr

/-- Read the flags: `i` and `g`, each at most once; the other flags are not modelled. -/
def parseFlags : Str → Bool → Bool → Except Failure (Bool × Bool)
  | [], i, g => .ok (i, g)
  | u :: us, i, g =>
    if u = 105 then (if i then .error (.invalid "Invalid flags") else parseFlags us true g)
    else if u = 103 then (if g then .error (.invalid "Invalid flags") else parseFlags us i true)
    else if u = 100 ∨ u = 109 ∨ u = 115 ∨ u = 117 ∨ u = 118 ∨ u = 121 then .error .unsupported
    else .error (.invalid "Invalid flags")

/-- `new RegExp(pattern, flags)`. -/
def compile (pattern flags : Str) : Except Failure Compiled :=
  match parseFlags flags false false with
  | .error e => .error e
  | .ok (i, g) =>
    match parse pattern with
    | .error e => .error e
    | .ok (n, groups) => .ok ⟨n, groups, i, g⟩

/-- Is there a match starting at `pos` or later? -/
def searchFrom (upper : Nat → Nat) (ignoreCase : Bool) (n : Node) : Nat → Str → Bool
  | pos, [] => (matchAt upper ignoreCase n pos []).isSome
  | pos, c :: r =>
    (matchAt upper ignoreCase n pos (c :: r)).isSome || searchFrom upper ignoreCase n (pos + 1) r

/-- `re.test(s)` for a RegExp without the `g` flag. -/
def test (upper : Nat → Nat) (re : Compiled) (s : Str) : Bool :=
  searchFrom upper re.ignoreCase re.node 0 s

/-- Decimal digits. -/
def isDigit (u : Nat) : Bool := 48 ≤ u && u ≤ 57

/-- The text captured by group `i`, empty when the group did not take part. -/
def capture (caps : Captures) (i : Nat) : Str := (caps.lookup i).getD []

/-- GetSubstitution, for a pattern without named groups: expands `$$`, `$&`, the text
before and after the match, and `$n`, `$nn` for an existing group; anything else is kept. -/
def expand (groups : Nat) (before matched after : Str) (caps : Captures) : Str → Str
  | [] => []
  | [u] => [u]
  | 36 :: v :: t =>
    if v = 36 then 36 :: expand groups before matched after caps t
    else if v = 38 then matched ++ expand groups before matched after caps t
    else if v = 96 then before ++ expand groups before matched after caps t
    else if v = 39 then after ++ expand groups before matched after caps t
    else if isDigit v then
      match t with
      | w :: t' =>
        if isDigit w ∧ 1 ≤ (v - 48) * 10 + (w - 48) ∧ (v - 48) * 10 + (w - 48) ≤ groups then
          capture caps ((v - 48) * 10 + (w - 48)) ++ expand groups before matched after caps t'
        else if 1 ≤ v - 48 ∧ v - 48 ≤ groups then
          capture caps (v - 48) ++ expand groups before matched after caps (w :: t')
        else 36 :: v :: expand groups before matched after caps (w :: t')
      | [] =>
        if 1 ≤ v - 48 ∧ v - 48 ≤ groups then capture caps (v - 48) else [36, v]
    else 36 :: expand groups before matched after caps (v :: t)
  | u :: v :: t => u :: expand groups before matched after caps (v :: t)

/-- The loop of `replace`: `before` is the input already passed (latest first), `rest`
the input from index `pos` on. Without the `g` flag only the first match is replaced;
with it, the search resumes after each match, one unit further after an empty one. -/
def replaceLoop (upper : Nat → Nat) (re : Compiled) (template : Str) :
    Nat → Str → Nat → Str → Str
  | 0, _, _, rest => rest
  | fuel + 1, before, pos, rest =>
    match matchAt upper re.ignoreCase re.node pos rest with
    | some (e, caps) =>
      let out := expand re.groups before.reverse (rest.take (e - pos)) (rest.drop (e - pos))
        caps template
      if !re.global then out ++ rest.drop (e - pos)
      else if e = pos then
        match rest with
        | [] => out
        | c :: r => out ++ c :: replaceLoop upper re template fuel (c :: before) (pos + 1) r
      else
        out ++ replaceLoop upper re template fuel ((rest.take (e - pos)).reverse ++ before) e
          (rest.drop (e - pos))
    | none =>
      match rest with
      | [] => []
      | c :: r => c :: replaceLoop upper re template fuel (c :: before) (pos + 1) r

/-- `s.replace(re, template)`. -/
def replace (upper : Nat → Nat) (s : Str) (re : Compiled) (template : Str) : Str :=
  replaceLoop upper re template (s.length + 1) [] 0 s

end RegExp

end JS

/-- The built-ins of the platform that the program calls and that are a table or an engine
of their own. The functions of the program take them as a parameter. -/
structure Builtins where
  /-- The method `s.toLowerCase()`. -/
  toLowerCase : Str → Str
  /-- RegExp objects. -/
  RegExp : Type
  /-- The constructor `new RegExp(pattern, flags)`: the object, or the `message` of the
  SyntaxError it raises. -/
  newRegExp : Str → Str → Except Str RegExp
  /-- The method `re.test(s)`. -/
  test : RegExp → Str → Bool
  /-- The method `s.replace(re, template)`. -/
  replace : Str → RegExp → Str → Str

/-- The `message` of the SyntaxError for a pattern that cannot be read. -/
def JS.RegExp.message (pattern flags : Str) : JS.RegExp.Failure → Str
  | .invalid what =>
    JS.utf16 "Invalid regular expression: /" ++ pattern ++ JS.utf16 "/" ++ flags
      ++ JS.utf16 ": " ++ JS.utf16 what
  | .unsupported => JS.utf16 "pattern outside the modelled fragment"

/-- The built-ins given by the modelled RegExp engine over any case tables: `lower` is
`toLowerCase`, `upper` the upper-case table of Canonicalize. The platform's own tables
are one choice of `lower` and `upper`. -/
def JS.engine (lower : Str → Str) (upper : Nat → Nat) : Builtins where
  toLowerCase := lower
  RegExp := JS.RegExp.Compiled
  newRegExp := fun pattern flags =>
    match JS.RegExp.compile pattern flags with
    | .ok re => .ok re
    | .error f => .error (JS.RegExp.message pattern flags f)
  test := JS.RegExp.test upper
  replace := JS.RegExp.replace upper

/-- The modelled built-ins, with the case tables of the modelled alphabets. -/
def JS.ecma : Builtins := JS.engine JS.toLowerCase JS.toUpperUnit

/-! ## ValidatorModule -/

namespace ValidatorModule

/-- What `validateForm` reads of the form element: the result of `checkValidity()`, the
`validationMessage` of its first `:invalid` control, and the values of the controls named
`title`, `content` and `mood`. -/
structure Form where
  checkValidity : Bool
  validationMessage : Str
  title : Str
  content : Str
  mood : Str

/-- The object returned: `{ ok:true }` or `{ ok:false, message }`. -/
inductive Result
  | ok
  | fail (message : Str)
deriving DecidableEq, Repr

/-- The array `banned`. -/
def banned : List Str := [JS.utf16 "spam", JS.utf16 "testtest"]

/-- `validateForm(form)`; `none` is a missing form element. -/
def validateForm (js : Builtins) (form : Option Form) : Result :=
  match form with
  | none => .fail (JS.utf16 "Форма не знайдена")
  | some form =>
    if !form.checkValidity then
      .fail (if form.validationMessage.isEmpty then JS.utf16 "Перевірте поля форми"
             else form.validationMessage)
    else
      let title := JS.trim form.title
      let content := JS.trim form.content
      let mood := form.mood
      if title.length < 2 then .fail (JS.utf16 "Заголовок занадто короткий")
      else if content.length < 5 then .fail (JS.utf16 "Текст нотатки занадто короткий")
      else if mood.isEmpty then .fail (JS.utf16 "Оберіть настрій")
      else if banned.any (fun b =>
          JS.includes (js.toLowerCase title) b || JS.includes (js.toLowerCase content) b)
        then .fail (JS.utf16 "Неможливий вміст у нотатці")
      else .ok

end ValidatorModule

/-- The five checks of the specification, in its order; each one answers with the message
of its failure, or nothing when it passes. -/
def Spec.validatorChecks (js : Builtins) : List (ValidatorModule.Form → Option Str) :=
  [ fun f => if f.checkValidity then none
      else some (if f.validationMessage.isEmpty then JS.utf16 "Перевірте поля форми"
                 else f.validationMessage),
    fun f => if 2 ≤ (JS.trim f.title).length then none
      else some (JS.utf16 "Заголовок занадто короткий"),
    fun f => if 5 ≤ (JS.trim f.content).length then none
      else some (JS.utf16 "Текст нотатки занадто короткий"),
    fun f => if f.mood ≠ [] then none else some (JS.utf16 "Оберіть настрій"),
    fun f => if ∀ b ∈ ValidatorModule.banned,
          JS.includes (js.toLowerCase (JS.trim f.title)) b = false
          ∧ JS.includes (js.toLowerCase (JS.trim f.content)) b = false then none
      else some (JS.utf16 "Неможливий вміст у нотатці") ]

/-- The failure of the first check that fails, if any. -/
def Spec.firstFailure (cs : List (ValidatorModule.Form → Option Str))
    (f : ValidatorModule.Form) : Option Str :=
  cs.findSome? (fun c => c f)

/-! ## AppModule: the search page -/

namespace AppModule

/-- An element of `docs`: `{ id, title, text }`. -/
structure Doc where
  id : Str
  title : Str
  text : Str
deriving DecidableEq, Repr

/-- The fields of a stored note that the search page reads. -/
structure NoteView where
  id : Int
  title : Str
  content : Str

/-- The two fixed documents of `docs`. -/
def staticDocs : List Doc :=
  [ ⟨JS.utf16 "home", JS.utf16 "Головна",
      JS.utf16 "Креативний щоденник — місце для ідей, натхнення й нотаток."⟩,
    ⟨JS.utf16 "inspiration", JS.utf16 "Натхнення",
      JS.utf16 "Цитати, творчі завдання та виклики для художників та письменників."⟩ ]

/-- The array `docs` of `_initSearch`, given the notes returned by `NotesModule.list()`:
the fixed documents, then `{ id: 'note:'+n.id, title: n.title, text: n.content }` for each
note in the order of the list. -/
def docs (notes : List NoteView) : List Doc :=
  staticDocs ++ notes.map (fun n => ⟨JS.utf16 "note:" ++ JS.decimal n.id, n.title, n.content⟩)

/-- `truncate(s, n)`. -/
def truncate (s : Str) (n : Nat) : Str :=
  if s.isEmpty then [] else if s.length > n then s.take n ++ JS.utf16 "..." else s

/-- The code units matched by the class of `escapeRegExp`:
`-` `/` `\` `^` `$` `*` `+` `?` `.` `(` `)` `|` `[` `]` and the two braces. -/
def regExpSpecials : List Nat := [45, 47, 92, 94, 36, 42, 43, 63, 46, 40, 41, 124, 91, 93, 123, 125]

/-- `escapeRegExp(s)`: every code unit of the class gets a backslash in front (the
replacement `'\\$&'`), the others are kept. -/
def escapeRegExp (s : Str) : Str :=
  s.flatMap (fun u => if u ∈ regExpSpecials then [92, u] else [u])

/-- The contents of a `.card__text` element: the string that `renderResults` passes through
`escapeHtml` into it; the
markup string passed to `.html()` by the highlighter, for a text that the page reads back
unchanged and that holds no markup of its own; or `reparsed`, for any other element the
highlighter has visited: what it then holds depends on how the browser reads the text
back and parses it as markup, which is not described here. -/
inductive CardText
  | text (t : Str)
  | html (markup : Str)
  | reparsed
deriving DecidableEq, Repr

/-- A result card, by the strings the program writes into its three parts: `title` and
`source` are the strings that `renderResults` passes through `escapeHtml` into the markup
of the card. -/
structure Card where
  title : Str
  text : CardText
  source : Str
deriving DecidableEq, Repr

/-- The contents of the element `results`: left as it was, one card holding a message, or
the cards of the documents found. -/
inductive View
  | untouched
  | notice (text : Str)
  | cards (items : List Card)
deriving DecidableEq, Repr

/-- `renderResults(list)`. -/
def renderResults (list : List Doc) : View :=
  if list.isEmpty then .notice (JS.utf16 "Нічого не знайдено")
  else .cards (list.map (fun item =>
    ⟨item.title, .text (truncate item.text 240), JS.utf16 "Джерело: " ++ item.id⟩))

/-- `(input.value || '').trim()`. -/
def query (inputValue : Str) : Str := JS.trim inputValue

/-- `document.querySelector('input[name="mode"]:checked')?.value || 'indexOf'`, given the
value of the checked radio button, if one is checked. -/
def modeOf (checked : Option Str) : Str :=
  match checked with
  | some v => if v.isEmpty then JS.utf16 "indexOf" else v
  | none => JS.utf16 "indexOf"

/-- The test of the `indexOf` branch on one document. -/
def indexOfTest (js : Builtins) (q : Str) (d : Doc) : Bool :=
  JS.indexOf (js.toLowerCase d.text) (js.toLowerCase q) != -1
    || JS.indexOf (js.toLowerCase d.title) (js.toLowerCase q) != -1

/-- The test of the `jquery` branch on one document. -/
def includesTest (js : Builtins) (q : Str) (d : Doc) : Bool :=
  JS.includes (js.toLowerCase d.text) (js.toLowerCase q)
    || JS.includes (js.toLowerCase d.title) (js.toLowerCase q)

/-- What the click handler of the search button did: called `renderResults(found)`, showed
the message of a pattern error, or nothing. -/
inductive Outcome
  | rendered (found : List Doc)
  | patternError (message : Str)
  | nothing
deriving DecidableEq, Repr

/-- The click handler of the search button, up to its writes to the page. -/
def search (js : Builtins) (docs : List Doc) (inputValue : Str) (checked : Option Str) :
    Outcome :=
  let q := query inputValue
  let mode := modeOf checked
  if q.isEmpty then .rendered []
  else if mode = JS.utf16 "indexOf" then .rendered (docs.filter (indexOfTest js q))
  else if mode = JS.utf16 "regex" then
    match js.newRegExp q (JS.utf16 "i") with
    | .ok re => .rendered (docs.filter (fun d => js.test re d.text || js.test re d.title))
    | .error message => .patternError message
  else if mode = JS.utf16 "jquery" then .rendered (docs.filter (includesTest js q))
  else .nothing

/-- The contents of `results` when the click handler returns. The handler raises nothing:
the only call that can raise, `new RegExp`, is inside its `try`. -/
def onSearchClick (js : Builtins) (docs : List Doc) (inputValue : Str) (checked : Option Str) :
    View × Option Exn :=
  match search js docs inputValue checked with
  | .rendered found => (renderResults found, none)
  | .patternError message => (.notice (JS.utf16 "Помилка регулярного виразу: " ++ message), none)
  | .nothing => (.untouched, none)

/-- The markup computed by the timer callback for the text `t` of a card:
`t.replace(new RegExp('('+escapeRegExp(q)+')','ig'), '<mark>$1</mark>')`; nothing when the
constructor raises. -/
def highlight (js : Builtins) (q t : Str) : Option Str :=
  match js.newRegExp (JS.utf16 "(" ++ escapeRegExp q ++ JS.utf16 ")") (JS.utf16 "ig") with
  | .ok re => some (js.replace t re (JS.utf16 "<mark>$1</mark>"))
  | .error _ => none

/-- A text that `$(this).text()` reads back as it was written and that `.html()` parses
as text only: it holds no `<`, no `&`, no carriage return and no NUL. -/
def plain (t : Str) : Bool := t.all (fun u => u != 60 && u != 38 && u != 13 && u != 0)

/-- The timer callback of the `jquery` branch on one card: when the constructor does not
raise, the element is rewritten with `$(this).html(newHtml)`, where `newHtml` is computed
from `$(this).text()`. -/
def highlightCard (js : Builtins) (q : Str) (c : Card) : Card :=
  match c.text with
  | .text t =>
    match highlight js q t with
    | some markup => if plain t then { c with text := .html markup }
                     else { c with text := .reparsed }
    | none => c
  | _ => { c with text := .reparsed }

/-- The contents of `results` once the timer set by the click has fired: in the `jquery`
branch every `.card__text` is rewritten by the highlighter, otherwise nothing changes. -/
def afterTimer (js : Builtins) (docs : List Doc) (inputValue : Str) (checked : Option Str) :
    View :=
  match (onSearchClick js docs inputValue checked).1 with
  | .cards items =>
    if (query inputValue).isEmpty = false ∧ modeOf checked = JS.utf16 "jquery" then
      .cards (items.map (highlightCard js (query inputValue)))
    else .cards items
  | v => v

end AppModule

/-- Does the text `t` begin with `q`, up to letter case? Two code units are equal up to
letter case when `fold` sends them to the same code unit. -/
def Spec.occursAt (fold : Nat → Nat) (q t : Str) : Bool :=
  q.length ≤ t.length && (t.take q.length).map fold == q.map fold

/-- The markup of the specification for a query `q` and a text: reading the text from the
left, a stretch that equals `q` up to letter case is wrapped in `<mark>` and `</mark>`
and reading resumes after it; any other code unit is copied. `skip` counts the code
units ahead that the last stretch already covered. -/
def Spec.markOccurrences (fold : Nat → Nat) (q : Str) : Nat → Str → Str
  | _, [] => []
  | skip + 1, _ :: r => Spec.markOccurrences fold q skip r
  | 0, c :: r =>
    if Spec.occursAt fold q (c :: r) then
      JS.utf16 "<mark>" ++ (c :: r).take q.length ++ JS.utf16 "</mark>"
        ++ Spec.markOccurrences fold q (q.length - 1) r
    else c :: Spec.markOccurrences fold q 0 r

/-! # Properties -/

/-! ## Observer -/

theorem forEach_tryCatch_eq {W P : Type} (data : P) (hs : List (Observer.Handler W P))
    (s : Env W) :
    JS.forEach (fun fn => JS.tryCatch (Observer.call data fn) JS.consoleError) hs s
      = (Spec.runInOrder data hs s, none) := by
  induction hs generalizing s with
  | nil => rfl
  | cons h hs ih =>
    simp only [JS.forEach, JS.tryCatch, Observer.call, Spec.runInOrder]
    rcases hr : h data s.world with ⟨w, _ | e⟩
    · simp [ih]
    · simp [JS.consoleError, ih]

theorem notesChanged_not_inherited :
    NotesModule.notesChanged ∉ Observer.objectPrototypeKeys := by decide

/-- The handlers registered under a name that `Object.prototype` does not define. -/
theorem Observer.get_of_not_inherited {W P : Type} (ev : Observer.Registry W P) (e : Str)
    (he : e ∉ Observer.objectPrototypeKeys) :
    Observer.get ev e = (ev.own.lookup e).map Observer.Slot.fns := by
  unfold Observer.get
  cases ev.own.lookup e <;> simp [he]

theorem Observer.lookup_subscribe {W P : Type} (ev : Observer.Registry W P) (e name : Str)
    (fn : Observer.Handler W P) (he : e ∉ Observer.objectPrototypeKeys) :
    ((Observer.subscribe name fn ev).1.own.lookup e).getD []
      = (ev.own.lookup e).getD [] ++ (if name = e then [fn] else []) := by
  unfold Observer.subscribe Observer.get
  by_cases hne : name = e
  · subst hne
    cases h : ev.own.lookup name <;> simp [h, he, List.lookup]
  · have hne' : (e == name) = false := by simpa using fun h => hne h.symm
    cases h : ev.own.lookup name with
    | some hs => simp [List.lookup, hne, hne']
    | none =>
      by_cases hk : name ∈ Observer.objectPrototypeKeys <;> simp [hk, List.lookup, hne, hne']

theorem Observer.lookup_subscribeAll {W P : Type} (subs : List (Str × Observer.Handler W P))
    (ev : Observer.Registry W P) (e : Str) (he : e ∉ Observer.objectPrototypeKeys) :
    ((Observer.subscribeAll subs ev).own.lookup e).getD []
      = (ev.own.lookup e).getD [] ++ (subs.filter (fun sub => sub.1 == e)).map Prod.snd := by
  induction subs generalizing ev with
  | nil => simp [Observer.subscribeAll]
  | cons sub subs ih =>
    have h := ih (Observer.subscribe sub.1 sub.2 ev).1
    simp only [Observer.subscribeAll, List.foldl_cons] at h ⊢
    rw [h, Observer.lookup_subscribe ev e sub.1 sub.2 he]
    by_cases hs : sub.1 = e <;> simp [hs, List.filter_cons]

/-- Publishing under a name that `Object.prototype` does not define runs the handlers
subscribed under that name, once each, in registration order, with the payload; handlers
subscribed under other names do not run, what a handler raises goes to the console, and
`publish` itself does not raise. -/
theorem Observer.publish_runs_subscribers {W P : Type}
    (subs : List (Str × Observer.Handler W P)) (e : Str) (p : P) (s : Env W)
    (he : e ∉ Observer.objectPrototypeKeys) :
    Observer.publish e p (Observer.subscribeAll subs Observer.empty) s
      = (Spec.runInOrder p ((subs.filter (fun sub => sub.1 == e)).map Prod.snd) s, none) := by
  have h := Observer.lookup_subscribeAll subs (Observer.empty : Observer.Registry W P) e he
  simp only [Observer.empty, List.lookup, Option.getD_none, List.nil_append] at h
  unfold Observer.publish
  rw [Observer.get_of_not_inherited _ e he]
  cases hl : (Observer.subscribeAll subs (⟨[]⟩ : Observer.Registry W P)).own.lookup e with
  | none =>
    rw [hl] at h
    simp only [Observer.empty, hl, Option.map_none', forEach_tryCatch_eq]
    rw [← h]; rfl
  | some hs =>
    rw [hl] at h
    simp only [Observer.empty, hl, Option.map_some', forEach_tryCatch_eq]
    rw [← h]; rfl

/-- Publishing the change event never raises, whatever is registered. -/
theorem Observer.publish_notesChanged {W : Type} (data : JVal)
    (ev : Observer.Registry W JVal) (s : Env W) :
    (Observer.publish NotesModule.notesChanged data ev s).2 = none := by
  unfold Observer.publish
  rw [Observer.get_of_not_inherited _ _ notesChanged_not_inherited]
  cases ev.own.lookup NotesModule.notesChanged <;> simp [forEach_tryCatch_eq]

/-- Claim C4, at the event name `"constructor"`: `ev[name]` finds the member that `ev`
inherits from `Object.prototype`, so `subscribe` raises a TypeError instead of registering
the handler, and `publish` under that name raises a TypeError and leaves the page as it
was: the handler is not invoked. The same holds with nothing subscribed. The claim
promises, for every event name, that the subscribed handlers run and `publish` returns. -/
theorem publish_inherited_name_raises {W P : Type} (p : P) (fn : Observer.Handler W P)
    (s : Env W) :
    (Observer.subscribe (JS.utf16 "constructor") fn
        (Observer.empty : Observer.Registry W P)).2
        = some (Exn.typeError "(ev[name] = ev[name] || []).push is not a function")
      ∧ Observer.publish (JS.utf16 "constructor") p
          (Observer.subscribe (JS.utf16 "constructor") fn
            (Observer.empty : Observer.Registry W P)).1 s
        = (s, some (Exn.typeError "(ev[name] || []).forEach is not a function"))
      ∧ Observer.publish (JS.utf16 "constructor") p (Observer.empty : Observer.Registry W P) s
        = (s, some (Exn.typeError "(ev[name] || []).forEach is not a function")) := by
  refine ⟨rfl, rfl, rfl⟩

/-! ## NotesModule -/

theorem NotesModule.read_json_arr (xs : List JVal) :
    NotesModule._read (.json (.arr xs)) = .ok (.arr xs) := rfl

/-- What `add` does on a stored array: the new note goes in front, the rest is kept, the
whole array is written back, and the call returns normally. -/
theorem NotesModule.add_json_arr {W : Type} (now : Int) (note : List (Str × JVal))
    (xs : List JVal) (ev : Observer.Registry W JVal) (env : Env W) :
    (NotesModule.add now note ⟨.json (.arr xs), ev, env⟩).2 = none
      ∧ (NotesModule.add now note ⟨.json (.arr xs), ev, env⟩).1.storage
          = .json (.arr (.obj (objectAssign (objectAssign [] note)
              [(JS.utf16 "id", .num now)]) :: xs))
      ∧ (NotesModule.add now note ⟨.json (.arr xs), ev, env⟩).1.ev = ev := by
  have hp := Observer.publish_notesChanged
    (JVal.arr (.obj (objectAssign (objectAssign [] note) [(JS.utf16 "id", .num now)]) :: xs))
    ev env
  refine ⟨?_, ?_, ?_⟩ <;>
    simp only [NotesModule.add, NotesModule.read_json_arr, NotesModule._write, setStored]
  exact hp

/-- The object stored for a draft: `Object.assign({}, note, { id: now })` keeps the four
properties of the draft in order and appends `id`. -/
theorem NoteDraft.assign_id (d : NoteDraft) (now : Int) :
    objectAssign (objectAssign [] d.toObj) [(JS.utf16 "id", .num now)]
      = d.toObj ++ [(JS.utf16 "id", .num now)] := rfl

/-- Claim C1: from any stored array `c`, after `add(d)` the call `list()` returns an array
whose first element has the title, content and mood of the draft `d` and an `id` (the
clock reading of the call), followed by the elements of `c` in their order; `add` itself
returns normally. -/
theorem add_then_list_prepends {W : Type} (c : List JVal) (d : NoteDraft) (now : Int)
    (ev : Observer.Registry W JVal) (env : Env W) :
    ∃ first : List (Str × JVal),
      (NotesModule.add now d.toObj ⟨.json (.arr c), ev, env⟩).2 = none
      ∧ NotesModule.list (NotesModule.add now d.toObj ⟨.json (.arr c), ev, env⟩).1.storage
          = .ok (.arr (.obj first :: c))
      ∧ first.lookup (JS.utf16 "title") = some (.str d.title)
      ∧ first.lookup (JS.utf16 "content") = some (.str d.content)
      ∧ first.lookup (JS.utf16 "mood") = some (.str d.mood)
      ∧ first.lookup (JS.utf16 "id") = some (.num now) := by
  obtain ⟨h1, h2, _⟩ := NotesModule.add_json_arr now d.toObj c ev env
  rw [NoteDraft.assign_id] at h2
  refine ⟨d.toObj ++ [(JS.utf16 "id", .num now)], h1, ?_, ?_, ?_, ?_, ?_⟩
  · rw [h2]; rfl
  all_goals simp [NoteDraft.toObj, List.lookup, JS.utf16, JS.utf16Char]

/-- Claim C7: whatever is stored under the notes key, `list()` returns a value and does
not raise; when the backend refuses the read, the entry is absent, or its text is not
JSON, the value is the empty array; and `list()` only reads, so two calls on the same
storage return the same value. -/
theorem list_never_raises (st : Stored) :
    (∃ v, NotesModule.list st = .ok v)
      ∧ NotesModule.list .unreadable = .ok (.arr [])
      ∧ NotesModule.list .absent = .ok (.arr [])
      ∧ (∀ text, NotesModule.list (.malformed text) = .ok (.arr []))
      ∧ (∀ v₁ v₂, NotesModule.list st = .ok v₁ → NotesModule.list st = .ok v₂ → v₁ = v₂) := by
  refine ⟨?_, rfl, rfl, fun _ => rfl, ?_⟩
  · unfold NotesModule.list NotesModule._read
    cases h : (parseStored st).map (fun v => if v.truthy then v else JVal.arr []) with
    | ok v => exact ⟨v, rfl⟩
    | error e => exact ⟨_, rfl⟩
  · intro v₁ v₂ h₁ h₂
    rw [h₁] at h₂
    exact Except.ok.inj h₂

theorem NotesModule.filterOthers_eq (id : JVal) (xs : List JVal)
    (hxs : ∀ n ∈ xs, n ≠ JVal.null) :
    NotesModule.filterOthers id xs
      = .ok (xs.filter (fun n => !JVal.strictEq (NotesModule.idOf n) id)) := by
  induction xs with
  | nil => rfl
  | cons n ns ih =>
    have hn : n ≠ JVal.null := hxs n (List.mem_cons_self _ _)
    have ih' := ih (fun m hm => hxs m (List.mem_cons_of_mem _ hm))
    have hid : n.getId = .ok (NotesModule.idOf n) := by
      cases n <;> first | rfl | exact absurd rfl hn
    simp only [NotesModule.filterOthers, hid, ih', List.filter_cons]
    cases JVal.strictEq (NotesModule.idOf n) id <;> rfl

/-- Claim C3: from a stored array `c` of notes (no element is `null`; notes are objects),
after `remove(x)` the call `list()` returns `c` without the elements whose `id` is strictly
equal to `x`, the others in their order; so no element of the result has id `x`, and when
no element of `c` has id `x` the result is `c`. `remove` returns normally in all cases. -/
theorem remove_then_list_filters {W : Type} (c : List JVal) (x : JVal)
    (ev : Observer.Registry W JVal) (env : Env W) (hc : ∀ n ∈ c, n ≠ JVal.null) :
    (NotesModule.remove x ⟨.json (.arr c), ev, env⟩).2 = none
      ∧ NotesModule.list (NotesModule.remove x ⟨.json (.arr c), ev, env⟩).1.storage
          = .ok (.arr (c.filter (fun n => !JVal.strictEq (NotesModule.idOf n) x)))
      ∧ (∀ n ∈ c.filter (fun n => !JVal.strictEq (NotesModule.idOf n) x),
          JVal.strictEq (NotesModule.idOf n) x = false)
      ∧ ((∀ n ∈ c, JVal.strictEq (NotesModule.idOf n) x = false) →
          NotesModule.list (NotesModule.remove x ⟨.json (.arr c), ev, env⟩).1.storage
            = .ok (.arr c)) := by
  have hp := Observer.publish_notesChanged
    (JVal.arr (c.filter (fun n => !JVal.strictEq (NotesModule.idOf n) x))) ev env
  have hrun : (NotesModule.remove x ⟨.json (.arr c), ev, env⟩).2 = none
      ∧ (NotesModule.remove x ⟨.json (.arr c), ev, env⟩).1.storage
          = .json (.arr (c.filter (fun n => !JVal.strictEq (NotesModule.idOf n) x))) := by
    constructor <;>
      simp only [NotesModule.remove, NotesModule.read_json_arr,
        NotesModule.filterOthers_eq x c hc, NotesModule._write, setStored]
    exact hp
  refine ⟨hrun.1, ?_, ?_, ?_⟩
  · rw [hrun.2]; rfl
  · intro n hn
    simpa using (List.mem_filter.mp hn).2
  · intro hno
    rw [hrun.2]
    have : c.filter (fun n => !JVal.strictEq (NotesModule.idOf n) x) = c :=
      List.filter_eq_self.mpr (fun n hn => by simp [hno n hn])
    rw [this]; rfl

/-- A stored array with two notes and the removal of the first one by its id. -/
theorem remove_then_list_filters_witness :
    (∀ n ∈ [JVal.obj [(JS.utf16 "id", .num 7)], JVal.obj [(JS.utf16 "id", .num 5)]],
        n ≠ JVal.null)
      ∧ NotesModule.list (NotesModule.remove (.num 7)
          (⟨.json (.arr [JVal.obj [(JS.utf16 "id", .num 7)],
              JVal.obj [(JS.utf16 "id", .num 5)]]), Observer.empty, ⟨(), []⟩⟩ :
            NotesModule.State Unit)).1.storage
          = .ok (.arr [JVal.obj [(JS.utf16 "id", .num 5)]]) :=
  ⟨by simp, by
    have h := (remove_then_list_filters (W := Unit)
      [JVal.obj [(JS.utf16 "id", .num 7)], JVal.obj [(JS.utf16 "id", .num 5)]] (.num 7)
      Observer.empty ⟨(), []⟩ (by simp)).2.1
    rw [h]
    rfl⟩

theorem lookup_setProp_self (o : List (Str × JVal)) (k : Str) (v : JVal) :
    (setProp o k v).lookup k = some v := by
  unfold setProp
  split
  · rename_i h
    induction o with
    | nil => simp at h
    | cons kv o ih =>
      by_cases hk : kv.1 = k
      · obtain ⟨k', v'⟩ := kv
        simp only at hk
        subst hk
        simp only [List.map_cons, beq_self_eq_true, if_true]
        rw [List.lookup_cons]
        simp
      · have hk' : (k == kv.1) = false := by simpa using fun h => hk h.symm
        have h' : o.any (fun kv => kv.1 == k) = true := by simpa [hk] using h
        simp only [List.map_cons, hk, if_false, beq_iff_eq]
        rw [List.lookup_cons, hk']
        simpa using ih h'
  · rename_i h
    induction o with
    | nil => simp [List.lookup]
    | cons kv o ih =>
      have hk : ¬ kv.1 = k := by
        intro hk; exact h (by simp [hk])
      have hk' : (k == kv.1) = false := by simpa using fun h => hk h.symm
      have h' : ¬ o.any (fun kv => kv.1 == k) = true := by
        intro ho; exact h (by simp [List.any_cons, ho])
      rw [List.cons_append, List.lookup_cons, hk']
      exact ih h'

/-- The note stored by `add` carries the clock reading as its `id`. -/
theorem NotesModule.idOf_added (note : List (Str × JVal)) (now : Int) :
    NotesModule.idOf (.obj (objectAssign (objectAssign [] note) [(JS.utf16 "id", .num now)]))
      = some (.num now) := by
  simp only [NotesModule.idOf, objectAssign, List.foldl]
  exact lookup_setProp_self _ _ _

/-- A series of `add` calls on a stored array returns normally and leaves an array
whose ids are the clock readings of the calls, latest call first, followed by the ids
that were stored. -/
theorem NotesModule.addAll_json_arr {W : Type} (adds : List (Int × List (Str × JVal)))
    (c : List JVal) (ev : Observer.Registry W JVal) (env : Env W) :
    ∃ xs env', NotesModule.addAll adds ⟨.json (.arr c), ev, env⟩
        = (⟨.json (.arr xs), ev, env'⟩, none)
      ∧ NotesModule.ids xs
        = (adds.map (fun a => some (JVal.num a.1))).reverse ++ NotesModule.ids c := by
  induction adds generalizing c env with
  | nil => exact ⟨c, env, rfl, by simp⟩
  | cons a adds ih =>
    obtain ⟨now, note⟩ := a
    obtain ⟨h1, h2, h3⟩ := NotesModule.add_json_arr now note c ev env
    have hstep : NotesModule.add now note ⟨.json (.arr c), ev, env⟩
        = (⟨.json (.arr (.obj (objectAssign (objectAssign [] note)
            [(JS.utf16 "id", .num now)]) :: c)), ev,
            (NotesModule.add now note ⟨.json (.arr c), ev, env⟩).1.env⟩, none) := by
      rcases hr : NotesModule.add now note ⟨.json (.arr c), ev, env⟩ with ⟨⟨st, ev', env'⟩, r⟩
      rw [hr] at h1 h2 h3
      simp only at h1 h2 h3
      subst h1 h2 h3
      rfl
    obtain ⟨xs, env', hx1, hx2⟩ := ih
      (.obj (objectAssign (objectAssign [] note) [(JS.utf16 "id", .num now)]) :: c)
      (NotesModule.add now note ⟨.json (.arr c), ev, env⟩).1.env
    refine ⟨xs, env', ?_, ?_⟩
    · simp only [NotesModule.addAll]; rw [hstep]; exact hx1
    · rw [hx2]
      simp [NotesModule.ids, NotesModule.idOf_added]

/-- Claim C2 as stated fails: from an empty store (no ids at all), two `add` calls that
read the same clock value both return normally, and `list()` then holds two notes with the
same id, that clock value. -/
theorem add_same_clock_reading_duplicates_id :
    NotesModule.list (NotesModule.addAll
        [(1700000000000, (⟨JS.utf16 "Mon", JS.utf16 "first note", JS.utf16 "calm",
            JS.utf16 "2023-11-14T22:13:20.000Z"⟩ : NoteDraft).toObj),
         (1700000000000, (⟨JS.utf16 "Tue", JS.utf16 "second note", JS.utf16 "happy",
            JS.utf16 "2023-11-14T22:13:20.000Z"⟩ : NoteDraft).toObj)]
        (⟨.absent, Observer.empty, ⟨(), []⟩⟩ : NotesModule.State Unit)).1.storage
      = .ok (.arr
          [.obj [(JS.utf16 "title", .str (JS.utf16 "Tue")),
                 (JS.utf16 "content", .str (JS.utf16 "second note")),
                 (JS.utf16 "mood", .str (JS.utf16 "happy")),
                 (JS.utf16 "created", .str (JS.utf16 "2023-11-14T22:13:20.000Z")),
                 (JS.utf16 "id", .num 1700000000000)],
           .obj [(JS.utf16 "title", .str (JS.utf16 "Mon")),
                 (JS.utf16 "content", .str (JS.utf16 "first note")),
                 (JS.utf16 "mood", .str (JS.utf16 "calm")),
                 (JS.utf16 "created", .str (JS.utf16 "2023-11-14T22:13:20.000Z")),
                 (JS.utf16 "id", .num 1700000000000)]])
      ∧ ¬ (NotesModule.ids
          [.obj [(JS.utf16 "title", .str (JS.utf16 "Tue")),
                 (JS.utf16 "content", .str (JS.utf16 "second note")),
                 (JS.utf16 "mood", .str (JS.utf16 "happy")),
                 (JS.utf16 "created", .str (JS.utf16 "2023-11-14T22:13:20.000Z")),
                 (JS.utf16 "id", .num 1700000000000)],
           .obj [(JS.utf16 "title", .str (JS.utf16 "Mon")),
                 (JS.utf16 "content", .str (JS.utf16 "first note")),
                 (JS.utf16 "mood", .str (JS.utf16 "calm")),
                 (JS.utf16 "created", .str (JS.utf16 "2023-11-14T22:13:20.000Z")),
                 (JS.utf16 "id", .num 1700000000000)]]).Nodup := by
  refine ⟨rfl, ?_⟩
  simp [NotesModule.ids, NotesModule.idOf, List.lookup, JS.utf16, JS.utf16Char]

/-- Claim C2, amended: for every series of `add` calls starting from any stored array with
pairwise different ids, when the clock readings of the calls are pairwise different and
none of them is the id of a stored note, every call returns normally, the notes added
carry their clock readings as ids, and the array returned by `list()` afterwards has
pairwise different ids. -/
theorem add_with_fresh_clock_keeps_ids_distinct {W : Type}
    (adds : List (Int × List (Str × JVal))) (c : List JVal)
    (ev : Observer.Registry W JVal) (env : Env W)
    (hc : (NotesModule.ids c).Nodup)
    (hclock : (adds.map Prod.fst).Nodup)
    (hfresh : ∀ t ∈ adds.map Prod.fst, some (JVal.num t) ∉ NotesModule.ids c) :
    ∃ xs, (NotesModule.addAll adds ⟨.json (.arr c), ev, env⟩).2 = none
      ∧ NotesModule.list (NotesModule.addAll adds ⟨.json (.arr c), ev, env⟩).1.storage
          = .ok (.arr xs)
      ∧ NotesModule.ids xs
          = (adds.map (fun a => some (JVal.num a.1))).reverse ++ NotesModule.ids c
      ∧ (NotesModule.ids xs).Nodup := by
  obtain ⟨xs, env', hrun, hids⟩ := NotesModule.addAll_json_arr adds c ev env
  refine ⟨xs, ?_, ?_, hids, ?_⟩
  · rw [hrun]
  · rw [hrun]; rfl
  · rw [hids, List.nodup_append]
    refine ⟨?_, hc, ?_⟩
    · rw [List.nodup_reverse]
      have hinj : Function.Injective (fun t : Int => some (JVal.num t)) := by
        intro a b h
        simpa using h
      have := hclock.map hinj
      simpa [List.map_map, Function.comp_def] using this
    · intro v hv hv'
      rw [List.mem_reverse, List.mem_map] at hv
      obtain ⟨a, ha, rfl⟩ := hv
      exact hfresh a.1 (List.mem_map_of_mem Prod.fst ha) hv'

/-- Two `add` calls one millisecond apart on a store holding one note. -/
theorem add_with_fresh_clock_keeps_ids_distinct_witness :
    (NotesModule.ids [JVal.obj [(JS.utf16 "id", .num 5)]]).Nodup
      ∧ ([((6 : Int), ([] : List (Str × JVal))), (7, [])].map Prod.fst).Nodup
      ∧ (∀ t ∈ [((6 : Int), ([] : List (Str × JVal))), (7, [])].map Prod.fst,
          some (JVal.num t) ∉ NotesModule.ids [JVal.obj [(JS.utf16 "id", .num 5)]])
      ∧ ∃ xs, NotesModule.list (NotesModule.addAll [(6, []), (7, [])]
            (⟨.json (.arr [JVal.obj [(JS.utf16 "id", .num 5)]]), Observer.empty, ⟨(), []⟩⟩ :
              NotesModule.State Unit)).1.storage = .ok (.arr xs)
          ∧ NotesModule.ids xs = [some (.num 7), some (.num 6), some (.num 5)] := by
  have hc : (NotesModule.ids [JVal.obj [(JS.utf16 "id", .num 5)]]).Nodup := by
    simp [NotesModule.ids]
  have hclock : ([((6 : Int), ([] : List (Str × JVal))), (7, [])].map Prod.fst).Nodup := by
    decide
  have hfresh : ∀ t ∈ [((6 : Int), ([] : List (Str × JVal))), (7, [])].map Prod.fst,
      some (JVal.num t) ∉ NotesModule.ids [JVal.obj [(JS.utf16 "id", .num 5)]] := by
    intro t ht
    simp only [List.map_cons, List.map_nil, List.mem_cons, List.mem_singleton,
      List.not_mem_nil, or_false] at ht
    rcases ht with rfl | rfl <;>
      simp [NotesModule.ids, NotesModule.idOf, List.lookup, JS.utf16, JS.utf16Char]
  obtain ⟨xs, _, hlist, hids, _⟩ := add_with_fresh_clock_keeps_ids_distinct (W := Unit)
    [(6, []), (7, [])] [JVal.obj [(JS.utf16 "id", .num 5)]] Observer.empty ⟨(), []⟩
    hc hclock hfresh
  refine ⟨hc, hclock, hfresh, xs, hlist, ?_⟩
  rw [hids]
  simp [NotesModule.ids, NotesModule.idOf, List.lookup, JS.utf16, JS.utf16Char]

/-! ## ValidatorModule -/

/-- Claim C5: on every form, `validateForm` returns the failure of the first failing check
in the order structural validity, trimmed title of at least 2 code units, trimmed content
of at least 5, non-empty mood, no banned word in the lower-cased title or content; it
returns `{ok:true}` exactly when all five pass. With the modelled `toLowerCase`: title
`"a"` fails, content `"hi"` fails, mood `""` fails, content `"this contains spam"` fails,
and `My Day` / `hello world` / `calm` succeeds. -/
theorem validateForm_first_failing_check (js : Builtins) (f : ValidatorModule.Form) :
    ValidatorModule.validateForm js (some f)
        = (match Spec.firstFailure (Spec.validatorChecks js) f with
           | some message => .fail message
           | none => .ok)
      ∧ (ValidatorModule.validateForm js (some f) = .ok ↔
          f.checkValidity = true
          ∧ 2 ≤ (JS.trim f.title).length
          ∧ 5 ≤ (JS.trim f.content).length
          ∧ f.mood ≠ []
          ∧ ∀ b ∈ ValidatorModule.banned,
              JS.includes (js.toLowerCase (JS.trim f.title)) b = false
              ∧ JS.includes (js.toLowerCase (JS.trim f.content)) b = false)
      ∧ ValidatorModule.validateForm JS.ecma
          (some ⟨true, [], JS.utf16 "a", JS.utf16 "hello world", JS.utf16 "calm"⟩)
          = .fail (JS.utf16 "Заголовок занадто короткий")
      ∧ ValidatorModule.validateForm JS.ecma
          (some ⟨true, [], JS.utf16 "My Day", JS.utf16 "hi", JS.utf16 "calm"⟩)
          = .fail (JS.utf16 "Текст нотатки занадто короткий")
      ∧ ValidatorModule.validateForm JS.ecma
          (some ⟨true, [], JS.utf16 "My Day", JS.utf16 "hello world", JS.utf16 ""⟩)
          = .fail (JS.utf16 "Оберіть настрій")
      ∧ ValidatorModule.validateForm JS.ecma
          (some ⟨true, [], JS.utf16 "My Day", JS.utf16 "this contains spam", JS.utf16 "calm"⟩)
          = .fail (JS.utf16 "Неможливий вміст у нотатці")
      ∧ ValidatorModule.validateForm JS.ecma
          (some ⟨true, [], JS.utf16 "My Day", JS.utf16 "hello world", JS.utf16 "calm"⟩)
          = .ok := by
  refine ⟨?_, ?_, by decide, by decide, by decide, by decide, by decide⟩
  · simp only [ValidatorModule.validateForm, Spec.firstFailure,
      Spec.validatorChecks, List.findSome?]
    cases hv : f.checkValidity
    · simp
    · by_cases ht : 2 ≤ (JS.trim f.title).length
      · by_cases hc : 5 ≤ (JS.trim f.content).length
        · by_cases hm : f.mood = []
          · simp [ht, hc, hm, Nat.not_lt.mpr ht, Nat.not_lt.mpr hc]
          · by_cases hb : ∀ b ∈ ValidatorModule.banned,
                JS.includes (js.toLowerCase (JS.trim f.title)) b = false
                ∧ JS.includes (js.toLowerCase (JS.trim f.content)) b = false
            · have hany : (ValidatorModule.banned.any (fun b =>
                  JS.includes (js.toLowerCase (JS.trim f.title)) b
                    || JS.includes (js.toLowerCase (JS.trim f.content)) b)) = false := by
                rw [List.any_eq_false]
                intro b hb'
                have := hb b hb'
                simp [this.1, this.2]
              simp only [ht, hc, hm, Nat.not_lt.mpr ht, Nat.not_lt.mpr hc, hany, hv,
                Bool.not_true, Bool.false_eq_true, if_false, if_true, List.isEmpty_iff,
                ne_eq, not_false_eq_true, if_pos hb]
            · have hany : (ValidatorModule.banned.any (fun b =>
                  JS.includes (js.toLowerCase (JS.trim f.title)) b
                    || JS.includes (js.toLowerCase (JS.trim f.content)) b)) = true := by
                rw [List.any_eq_true]
                push_neg at hb
                obtain ⟨b, hb', hbb⟩ := hb
                refine ⟨b, hb', ?_⟩
                by_cases h1 : JS.includes (js.toLowerCase (JS.trim f.title)) b = true
                · simp [h1]
                · have h2 := hbb (by simpa using h1)
                  simp only [Bool.not_eq_false] at h2
                  simp [h2]
              simp [ht, hc, hm, Nat.not_lt.mpr ht, Nat.not_lt.mpr hc, hany, hb]
        · simp [ht, hc, Nat.not_lt.mpr ht, Nat.lt_of_not_le hc]
      · simp [ht, Nat.lt_of_not_le ht]
  · simp only [ValidatorModule.validateForm]
    cases hv : f.checkValidity
    · simp
    · by_cases ht : 2 ≤ (JS.trim f.title).length
      · by_cases hc : 5 ≤ (JS.trim f.content).length
        · by_cases hm : f.mood = []
          · simp [ht, hc, hm, Nat.not_lt.mpr ht, Nat.not_lt.mpr hc]
          · simp only [Bool.not_true, Bool.false_eq_true, if_false, Nat.not_lt.mpr ht,
              Nat.not_lt.mpr hc, List.isEmpty_iff, hm, true_and, ht, hc, ne_eq,
              not_false_eq_true]
            split
            · rename_i hany
              simp only [reduceCtorEq, false_iff]
              intro hall
              rw [List.any_eq_true] at hany
              obtain ⟨b, hb, hbb⟩ := hany
              have := hall b hb
              simp [this.1, this.2] at hbb
            · rename_i hany
              simp only [true_iff]
              intro b hb
              have hf : ¬ ((JS.includes (js.toLowerCase (JS.trim f.title)) b
                  || JS.includes (js.toLowerCase (JS.trim f.content)) b) = true) :=
                fun h => hany (List.any_eq_true.mpr ⟨b, hb, h⟩)
              simpa using hf
        · simp [ht, hc, Nat.not_lt.mpr ht, Nat.lt_of_not_le hc]
      · simp [ht, Nat.lt_of_not_le ht]

/-! ## Search -/

theorem JS.indexOfFrom_ne_neg_one (p s : Str) (i : Nat) :
    (JS.indexOfFrom p s i != -1) = JS.includes s p := by
  induction s generalizing i with
  | nil =>
    cases hp : p.isEmpty
    · simp [JS.indexOfFrom, JS.includes, hp]
    · have : (i : Int) ≠ -1 := by omega
      simp [JS.indexOfFrom, JS.includes, hp, this]
  | cons c s ih =>
    cases hs : JS.startsWith (c :: s) p
    · simp [JS.indexOfFrom, JS.includes, hs, ih]
    · have : (i : Int) ≠ -1 := by omega
      simp [JS.indexOfFrom, JS.includes, hs, this]

/-- The test `indexOf(..) !== -1` of the `indexOf` branch and the test `includes(..)` of
the `jquery` branch accept the same documents. -/
theorem AppModule.indexOfTest_eq_includesTest (js : Builtins) (q : Str) :
    AppModule.indexOfTest js q = AppModule.includesTest js q := by
  funext d
  simp [AppModule.indexOfTest, AppModule.includesTest, JS.indexOf, JS.indexOfFrom_ne_neg_one]

theorem AppModule.modes_distinct :
    JS.utf16 "regex" ≠ JS.utf16 "indexOf" ∧ JS.utf16 "jquery" ≠ JS.utf16 "indexOf"
      ∧ JS.utf16 "jquery" ≠ JS.utf16 "regex" ∧ (JS.utf16 "regex").isEmpty = false
      ∧ (JS.utf16 "jquery").isEmpty = false ∧ (JS.utf16 "indexOf").isEmpty = false := by
  decide

/-- Claim C10: when the trimmed query is empty, `renderResults([])` is called whatever the
mode; otherwise the `indexOf` mode and the `jquery` mode render the same list, the
documents whose lower-cased title or lower-cased text contains the lower-cased trimmed
query; and in every mode a rendered list is a sublist of `docs`, in the order of `docs`
(which lists the fixed documents first, then the notes in the order of the store). -/
theorem search_modes_filter_docs (js : Builtins) (docs : List AppModule.Doc) (input : Str) :
    (AppModule.query input = [] →
        ∀ checked, AppModule.search js docs input checked = .rendered [])
      ∧ (AppModule.query input ≠ [] →
          AppModule.search js docs input (some (JS.utf16 "indexOf"))
            = .rendered (docs.filter (fun d =>
                JS.includes (js.toLowerCase d.title) (js.toLowerCase (JS.trim input))
                  || JS.includes (js.toLowerCase d.text) (js.toLowerCase (JS.trim input))))
          ∧ AppModule.search js docs input (some (JS.utf16 "jquery"))
            = .rendered (docs.filter (fun d =>
                JS.includes (js.toLowerCase d.title) (js.toLowerCase (JS.trim input))
                  || JS.includes (js.toLowerCase d.text) (js.toLowerCase (JS.trim input)))))
      ∧ (∀ checked found, AppModule.search js docs input checked = .rendered found →
          found.Sublist docs)
      ∧ (∀ notes : List AppModule.NoteView,
          (AppModule.docs notes).take 2 = AppModule.staticDocs
          ∧ ((AppModule.docs notes).drop 2).map AppModule.Doc.text
              = notes.map AppModule.NoteView.content) := by
  obtain ⟨h1, h2, h3, h4, h5, h6⟩ := AppModule.modes_distinct
  have hfilter : docs.filter (AppModule.includesTest js (AppModule.query input))
      = docs.filter (fun d =>
          JS.includes (js.toLowerCase d.title) (js.toLowerCase (JS.trim input))
            || JS.includes (js.toLowerCase d.text) (js.toLowerCase (JS.trim input))) := by
    congr 1
    funext d
    simp only [AppModule.includesTest, AppModule.query]
    exact Bool.or_comm _ _
  refine ⟨?_, ?_, ?_, ?_⟩
  · intro hq checked
    simp [AppModule.search, hq]
  · intro hq
    have hq' : (AppModule.query input).isEmpty = false := by
      cases h : AppModule.query input with
      | nil => exact absurd h hq
      | cons _ _ => rfl
    constructor
    · simp only [AppModule.search, AppModule.modeOf, h6, hq', Bool.false_eq_true, if_false,
        if_true, AppModule.indexOfTest_eq_includesTest, hfilter]
    · simp only [AppModule.search, AppModule.modeOf, h5, hq', Bool.false_eq_true, if_false,
        if_true, h2, h3, hfilter]
  · intro checked found h
    simp only [AppModule.search] at h
    split at h
    · cases h; exact List.nil_sublist _
    · split at h
      · cases h; exact List.filter_sublist _
      · split at h
        · split at h
          · cases h; exact List.filter_sublist _
          · cases h
        · split at h
          · cases h; exact List.filter_sublist _
          · cases h
  · intro notes
    constructor
    · simp [AppModule.docs, AppModule.staticDocs]
    · simp [AppModule.docs, AppModule.staticDocs, Function.comp_def]

/-- Claim C8: in `regex` mode, for every query whose trimmed text is non-empty and is
rejected by `new RegExp(q, 'i')` with message `m`, the handler returns normally and
`results` holds one card with the text `Помилка регулярного виразу: ` followed by `m`,
which is not the card `renderResults([])` writes. -/
theorem regex_mode_reports_pattern_error (js : Builtins) (docs : List AppModule.Doc)
    (input m : Str) (hq : AppModule.query input ≠ [])
    (hbad : js.newRegExp (AppModule.query input) (JS.utf16 "i") = .error m) :
    AppModule.onSearchClick js docs input (some (JS.utf16 "regex"))
        = (.notice (JS.utf16 "Помилка регулярного виразу: " ++ m), none)
      ∧ (AppModule.onSearchClick js docs input (some (JS.utf16 "regex"))).1
        ≠ AppModule.renderResults [] := by
  obtain ⟨h1, h2, h3, h4, h5, h6⟩ := AppModule.modes_distinct
  have hq' : (AppModule.query input).isEmpty = false := by
    cases h : AppModule.query input with
    | nil => exact absurd h hq
    | cons _ _ => rfl
  have hrun : AppModule.onSearchClick js docs input (some (JS.utf16 "regex"))
      = (.notice (JS.utf16 "Помилка регулярного виразу: " ++ m), none) := by
    simp only [AppModule.onSearchClick, AppModule.search, AppModule.modeOf, h4, hq',
      Bool.false_eq_true, if_false, if_true, h1, hbad]
  refine ⟨hrun, ?_⟩
  rw [hrun]
  intro h
  simp only [AppModule.renderResults, List.isEmpty_nil, if_true, AppModule.View.notice.injEq]
    at h
  have hh := congrArg List.head? h
  rw [List.head?_append_of_ne_nil _ (by decide)] at hh
  revert hh
  decide

/-- The query `[` is rejected by the modelled constructor, and reported. -/
theorem regex_mode_reports_pattern_error_witness :
    AppModule.query (JS.utf16 "[") ≠ []
      ∧ JS.ecma.newRegExp (AppModule.query (JS.utf16 "[")) (JS.utf16 "i")
          = .error (JS.utf16 "Invalid regular expression: /[/i: Unterminated character class")
      ∧ AppModule.onSearchClick JS.ecma AppModule.staticDocs (JS.utf16 "[")
          (some (JS.utf16 "regex"))
        = (.notice (JS.utf16
            "Помилка регулярного виразу: Invalid regular expression: /[/i: Unterminated character class"),
           none) :=
  ⟨by decide, rfl,
    (regex_mode_reports_pattern_error JS.ecma AppModule.staticDocs (JS.utf16 "[")
      (JS.utf16 "Invalid regular expression: /[/i: Unterminated character class")
      (by decide) rfl).1.trans (by decide)⟩

/-- The document `home` of `docs`. -/
theorem AppModule.home_mem_docs (notes : List AppModule.NoteView) :
    (⟨JS.utf16 "home", JS.utf16 "Головна",
      JS.utf16 "Креативний щоденник — місце для ідей, натхнення й нотаток."⟩ : AppModule.Doc)
      ∈ AppModule.docs notes := by
  simp [AppModule.docs, AppModule.staticDocs]

/-- Claim C6 as stated fails: in `indexOf` mode with an empty store, the query `creat`
(Latin letters) finds nothing; the lower-cased text of the document titled `Головна`,
which begins with the Cyrillic word `Креативний`, does not contain it, nor does its
title. -/
theorem latin_creat_finds_no_document :
    AppModule.search JS.ecma (AppModule.docs []) (JS.utf16 "creat") (some (JS.utf16 "indexOf"))
        = .rendered []
      ∧ JS.indexOf
          (JS.ecma.toLowerCase
            (JS.utf16 "Креативний щоденник — місце для ідей, натхнення й нотаток."))
          (JS.ecma.toLowerCase (JS.utf16 "creat")) = -1
      ∧ JS.indexOf (JS.ecma.toLowerCase (JS.utf16 "Головна"))
          (JS.ecma.toLowerCase (JS.utf16 "creat")) = -1 := by
  decide

/-- Claim C6, amended: in `indexOf` mode, whatever notes are stored, the query `creat` in
Latin letters never finds the document titled `Головна`, while every query whose trimmed
text lower-cases to the Cyrillic `креат`, that is, the same letters in Cyrillic in any
letter case, finds it through its text, at index 0: the test is a containment of code
units after lower-casing, with no transliteration. -/
theorem cyrillic_query_finds_home_document (notes : List AppModule.NoteView) (input : Str)
    (hq : JS.ecma.toLowerCase (AppModule.query input) = JS.utf16 "креат") :
    (∃ found,
        AppModule.search JS.ecma (AppModule.docs notes) input (some (JS.utf16 "indexOf"))
          = .rendered found
        ∧ (⟨JS.utf16 "home", JS.utf16 "Головна",
            JS.utf16 "Креативний щоденник — місце для ідей, натхнення й нотаток."⟩ :
            AppModule.Doc) ∈ found)
      ∧ JS.indexOf
          (JS.ecma.toLowerCase
            (JS.utf16 "Креативний щоденник — місце для ідей, натхнення й нотаток."))
          (JS.ecma.toLowerCase (AppModule.query input)) = 0
      ∧ (∀ found,
          AppModule.search JS.ecma (AppModule.docs notes) (JS.utf16 "creat")
            (some (JS.utf16 "indexOf")) = .rendered found →
          (⟨JS.utf16 "home", JS.utf16 "Головна",
            JS.utf16 "Креативний щоденник — місце для ідей, натхнення й нотаток."⟩ :
            AppModule.Doc) ∉ found) := by
  obtain ⟨h1, h2, h3, h4, h5, h6⟩ := AppModule.modes_distinct
  have hq1 : (AppModule.query input).isEmpty = false := by
    cases h : AppModule.query input with
    | nil =>
      rw [h] at hq
      exact absurd hq (by decide)
    | cons _ _ => rfl
  have hq2 : (AppModule.query (JS.utf16 "creat")).isEmpty = false := by decide
  refine ⟨⟨(AppModule.docs notes).filter
      (AppModule.indexOfTest JS.ecma (AppModule.query input)), ?_, ?_⟩, ?_, ?_⟩
  · simp only [AppModule.search, AppModule.modeOf, h6, hq1, Bool.false_eq_true, if_false,
      if_true]
  · rw [List.mem_filter]
    refine ⟨AppModule.home_mem_docs notes, ?_⟩
    simp only [AppModule.indexOfTest, hq]
    decide
  · rw [hq]
    decide
  · intro found h
    simp only [AppModule.search, AppModule.modeOf, h6, hq2, Bool.false_eq_true, if_false,
      if_true, AppModule.Outcome.rendered.injEq] at h
    subst h
    rw [List.mem_filter]
    rintro ⟨_, ht⟩
    revert ht
    decide

/-- The query `КреАТ`, in mixed letter case and with blanks around it, on a store of one
note. -/
theorem cyrillic_query_finds_home_document_witness :
    JS.ecma.toLowerCase (AppModule.query (JS.utf16 " КреАТ ")) = JS.utf16 "креат"
      ∧ ∃ found,
        AppModule.search JS.ecma
            (AppModule.docs [⟨1700000000000, JS.utf16 "Mon", JS.utf16 "first note"⟩])
            (JS.utf16 " КреАТ ") (some (JS.utf16 "indexOf"))
          = .rendered found
        ∧ (⟨JS.utf16 "home", JS.utf16 "Головна",
            JS.utf16 "Креативний щоденник — місце для ідей, натхнення й нотаток."⟩ :
            AppModule.Doc) ∈ found :=
  ⟨by decide,
    (cyrillic_query_finds_home_document
      [⟨1700000000000, JS.utf16 "Mon", JS.utf16 "first note"⟩] (JS.utf16 " КреАТ ")
      (by decide)).1⟩

/-! ## Highlighting -/

theorem AppModule.escapeRegExp_cons (u : Nat) (q : Str) :
    AppModule.escapeRegExp (u :: q)
      = (if u ∈ AppModule.regExpSpecials then [92, u] else [u]) ++ AppModule.escapeRegExp q := by
  simp [AppModule.escapeRegExp]

theorem JS.RegExp.step_plain (s : JS.RegExp.PState) (u : Nat) (hs : s.mode = .normal)
    (hu : u ∉ AppModule.regExpSpecials) :
    JS.RegExp.step s u = .ok (JS.RegExp.pushTerm s (.char u) true) := by
  simp only [AppModule.regExpSpecials, List.mem_cons, List.mem_singleton, not_or,
    List.not_mem_nil, or_false] at hu
  obtain ⟨-, -, h92, h94, h36, h42, h43, h63, h46, h40, h41, h124, h91, -, h123, -⟩ := hu
  simp [JS.RegExp.step, hs, h92, h94, h36, h42, h43, h63, h46, h40, h41, h124, h91, h123]

theorem JS.RegExp.step_escaped (s : JS.RegExp.PState) (u : Nat) (hs : s.mode = .normal)
    (hu : u ∈ AppModule.regExpSpecials) :
    ∃ s', JS.RegExp.step s 92 = .ok s'
      ∧ JS.RegExp.step s' u = .ok (JS.RegExp.pushTerm s (.char u) true) := by
  refine ⟨{ s with mode := .escape }, by simp [JS.RegExp.step, hs], ?_⟩
  have hal : JS.RegExp.isAsciiAlnum u = false := by
    simp only [AppModule.regExpSpecials, List.mem_cons, List.mem_singleton,
      List.not_mem_nil, or_false] at hu
    rcases hu with h | h | h | h | h | h | h | h | h | h | h | h | h | h | h | h <;>
      subst h <;> decide
  simp [JS.RegExp.step, hal, JS.RegExp.pushTerm]

/-- Reading an escaped query appends its code units, as literal characters, to the
current alternative. -/
theorem JS.RegExp.parseFrom_escaped (q rest : Str) (s : JS.RegExp.PState)
    (hs : s.mode = .normal) :
    JS.RegExp.parseFrom s (AppModule.escapeRegExp q ++ rest)
      = JS.RegExp.parseFrom
          (q.foldl (fun s u => JS.RegExp.pushTerm s (.char u) true) s) rest := by
  induction q generalizing s with
  | nil => rfl
  | cons u q ih =>
    have hmode : (JS.RegExp.pushTerm s (.char u) true).mode = .normal := rfl
    rw [AppModule.escapeRegExp_cons, List.foldl_cons]
    by_cases hu : u ∈ AppModule.regExpSpecials
    · obtain ⟨s', h1, h2⟩ := JS.RegExp.step_escaped s u hs hu
      simp only [hu, if_true, List.cons_append, List.nil_append, JS.RegExp.parseFrom, h1, h2]
      exact ih _ hmode
    · have h1 := JS.RegExp.step_plain s u hs hu
      simp only [hu, if_false, List.cons_append, List.nil_append, JS.RegExp.parseFrom, h1]
      exact ih _ hmode

theorem JS.RegExp.foldl_pushTerm (q : Str) (s : JS.RegExp.PState) :
    (q.foldl (fun s u => JS.RegExp.pushTerm s (.char u) true) s).stack = s.stack
      ∧ (q.foldl (fun s u => JS.RegExp.pushTerm s (.char u) true) s).groups = s.groups
      ∧ (q.foldl (fun s u => JS.RegExp.pushTerm s (.char u) true) s).top.index = s.top.index
      ∧ (q.foldl (fun s u => JS.RegExp.pushTerm s (.char u) true) s).top.alts = s.top.alts
      ∧ (q.foldl (fun s u => JS.RegExp.pushTerm s (.char u) true) s).top.terms
          = (q.map JS.RegExp.Node.char).reverse ++ s.top.terms
      ∧ (s.mode = .normal →
          (q.foldl (fun s u => JS.RegExp.pushTerm s (.char u) true) s).mode = .normal) := by
  induction q generalizing s with
  | nil => simp
  | cons u q ih =>
    obtain ⟨h1, h2, h3, h4, h5, h6⟩ := ih (JS.RegExp.pushTerm s (.char u) true)
    simp only [List.foldl_cons]
    refine ⟨h1, h2, h3, h4, ?_, fun _ => h6 rfl⟩
    rw [h5]
    simp [JS.RegExp.pushTerm, JS.RegExp.Frame.push]

/-- The pattern built by the highlighter is always accepted: it reads as one capturing
group around the code units of the query taken as literal characters. -/
theorem JS.RegExp.parse_escaped_group (q : Str) :
    JS.RegExp.parse (JS.utf16 "(" ++ AppModule.escapeRegExp q ++ JS.utf16 ")")
      = .ok (.seq (.group 1 (JS.RegExp.mkSeq (q.map JS.RegExp.Node.char).reverse)) .empty, 1) := by
  have hopen : JS.utf16 "(" = [40] := by decide
  have hclose : JS.utf16 ")" = [41] := by decide
  rw [hopen, hclose]
  have hstep : JS.RegExp.step JS.RegExp.start 40
      = .ok ⟨[JS.RegExp.newFrame 0 false], JS.RegExp.newFrame 1 true, .normal, 1⟩ := rfl
  have hfirst : JS.RegExp.parse ([40] ++ AppModule.escapeRegExp q ++ [41])
      = JS.RegExp.parseFrom
          ⟨[JS.RegExp.newFrame 0 false], JS.RegExp.newFrame 1 true, .normal, 1⟩
          (AppModule.escapeRegExp q ++ [41]) := by
    show JS.RegExp.parseFrom JS.RegExp.start (40 :: (AppModule.escapeRegExp q ++ [41])) = _
    rw [JS.RegExp.parseFrom, hstep]
  rw [hfirst, JS.RegExp.parseFrom_escaped q [41] _ rfl]
  obtain ⟨h1, h2, h3, h4, h5, h6⟩ := JS.RegExp.foldl_pushTerm q
    ⟨[JS.RegExp.newFrame 0 false], JS.RegExp.newFrame 1 true, .normal, 1⟩
  generalize q.foldl (fun s u => JS.RegExp.pushTerm s (.char u) true)
    ⟨[JS.RegExp.newFrame 0 false], JS.RegExp.newFrame 1 true, .normal, 1⟩ = s at h1 h2 h3 h4 h5 h6
  obtain ⟨stack, top, mode, groups⟩ := s
  obtain ⟨index, alts, terms, qa, qd, op⟩ := top
  simp only at h1 h2 h3 h4 h5 h6
  have h6' := h6 trivial
  subst h1 h2 h3 h4 h5 h6'
  simp [JS.RegExp.parseFrom, JS.RegExp.step, JS.RegExp.finish, JS.RegExp.Frame.push,
    JS.RegExp.Frame.node, JS.RegExp.newFrame, JS.RegExp.mkAlt, JS.RegExp.mkSeq]

theorem JS.RegExp.mkSeq_chars_cons (u : Nat) (q : Str) :
    JS.RegExp.mkSeq ((u :: q).map JS.RegExp.Node.char).reverse
      = .seq (.char u) (JS.RegExp.mkSeq (q.map JS.RegExp.Node.char).reverse) := by
  simp [JS.RegExp.mkSeq, List.foldl_append]

theorem Spec.occursAt_nil (fold : Nat → Nat) (t : Str) : Spec.occursAt fold [] t = true := by
  simp [Spec.occursAt]

theorem Spec.occursAt_cons_nil (fold : Nat → Nat) (u : Nat) (q : Str) :
    Spec.occursAt fold (u :: q) [] = false := by
  simp [Spec.occursAt]

theorem Spec.occursAt_cons_cons (fold : Nat → Nat) (u c : Nat) (q r : Str) :
    Spec.occursAt fold (u :: q) (c :: r)
      = (decide (fold c = fold u) && Spec.occursAt fold q r) := by
  simp only [Spec.occursAt, List.length_cons, List.take_succ_cons, List.map_cons]
  by_cases hl : q.length ≤ r.length
  · by_cases hc : fold c = fold u
    · simp [hl, hc]
    · simp [hl, hc]
  · simp [hl]

/-- Matching a run of literal characters is a comparison, code unit by code unit, up to
letter case. -/
theorem JS.RegExp.run_chars (upper : Nat → Nat) (q : Str) (pos : Nat) (rest : Str)
    (caps : JS.RegExp.Captures) (k : JS.RegExp.Cont) :
    JS.RegExp.run upper true (JS.RegExp.mkSeq (q.map JS.RegExp.Node.char).reverse)
        pos rest caps k
      = if Spec.occursAt (JS.canonicalize upper true) q rest then
          k (pos + q.length) (rest.drop q.length) caps
        else none := by
  induction q generalizing pos rest with
  | nil => simp [JS.RegExp.mkSeq, JS.RegExp.run, Spec.occursAt_nil]
  | cons u q ih =>
    rw [JS.RegExp.mkSeq_chars_cons]
    cases rest with
    | nil => simp [JS.RegExp.run, Spec.occursAt_cons_nil]
    | cons c r =>
      simp only [JS.RegExp.run, Spec.occursAt_cons_cons, ih, List.length_cons,
        List.drop_succ_cons]
      by_cases hc : JS.canonicalize upper true c = JS.canonicalize upper true u
      · simp [hc, Nat.add_assoc, Nat.add_comm 1]
      · simp [hc]

/-- One match attempt of the highlighter's pattern: it succeeds exactly where the text
continues with the query up to letter case, and captures that stretch as group 1. -/
theorem JS.RegExp.matchAt_escaped_group (upper : Nat → Nat) (q : Str) (pos : Nat)
    (rest : Str) :
    JS.RegExp.matchAt upper true
        (.seq (.group 1 (JS.RegExp.mkSeq (q.map JS.RegExp.Node.char).reverse)) .empty) pos rest
      = if Spec.occursAt (JS.canonicalize upper true) q rest then
          some (pos + q.length, [(1, rest.take q.length)])
        else none := by
  simp only [JS.RegExp.matchAt, JS.RegExp.run, JS.RegExp.run_chars]
  split <;> simp

theorem JS.RegExp.expand_mark (before matched after : Str) :
    JS.RegExp.expand 1 before matched after [(1, matched)] (JS.utf16 "<mark>$1</mark>")
      = JS.utf16 "<mark>" ++ matched ++ JS.utf16 "</mark>" := by
  have h1 : JS.utf16 "<mark>$1</mark>"
      = [60, 109, 97, 114, 107, 62, 36, 49, 60, 47, 109, 97, 114, 107, 62] := by decide
  have h2 : JS.utf16 "<mark>" = [60, 109, 97, 114, 107, 62] := by decide
  have h3 : JS.utf16 "</mark>" = [60, 47, 109, 97, 114, 107, 62] := by decide
  rw [h1, h2, h3]
  simp [JS.RegExp.expand, JS.RegExp.isDigit, JS.RegExp.capture, List.lookup]

theorem Spec.markOccurrences_skip (fold : Nat → Nat) (q : Str) (k : Nat) (r : Str) :
    Spec.markOccurrences fold q k r = Spec.markOccurrences fold q 0 (r.drop k) := by
  induction k generalizing r with
  | zero => simp
  | succ k ih =>
    cases r with
    | nil => simp [Spec.markOccurrences]
    | cons c r => simp [Spec.markOccurrences, ih]

/-- The loop of `replace`, run with the highlighter's pattern and template, computes the
markup of the specification. -/
theorem JS.RegExp.replaceLoop_escaped_group (upper : Nat → Nat) (q : Str) (hq : q ≠ [])
    (fuel : Nat) (before : Str) (pos : Nat) (rest : Str) (hfuel : rest.length < fuel) :
    JS.RegExp.replaceLoop upper
        ⟨.seq (.group 1 (JS.RegExp.mkSeq (q.map JS.RegExp.Node.char).reverse)) .empty,
          1, true, true⟩
        (JS.utf16 "<mark>$1</mark>") fuel before pos rest
      = Spec.markOccurrences (JS.canonicalize upper true) q 0 rest := by
  have hlen : 0 < q.length := List.length_pos.mpr hq
  induction fuel generalizing before pos rest with
  | zero => exact absurd hfuel (Nat.not_lt_zero _)
  | succ fuel ih =>
    simp only [JS.RegExp.replaceLoop, JS.RegExp.matchAt_escaped_group]
    by_cases ho : Spec.occursAt (JS.canonicalize upper true) q rest = true
    · cases rest with
      | nil =>
        obtain ⟨u, q', rfl⟩ := List.exists_cons_of_ne_nil hq
        simp [Spec.occursAt_cons_nil] at ho
      | cons c r =>
        have hne : ¬ (pos + q.length = pos) := by omega
        have hdrop : (c :: r).drop q.length = r.drop (q.length - 1) := by
          obtain ⟨n, hn⟩ : ∃ n, q.length = n + 1 := ⟨q.length - 1, by omega⟩
          rw [hn]; simp
        have hshort : ((c :: r).drop q.length).length < fuel := by
          simp only [List.length_drop, List.length_cons] at hfuel ⊢
          omega
        simp only [ho, if_true, Bool.not_true, Bool.false_eq_true, if_false, hne,
          Nat.add_sub_cancel_left, JS.RegExp.expand_mark, Spec.markOccurrences]
        rw [ih _ _ _ hshort,
          Spec.markOccurrences_skip (JS.canonicalize upper true) q (q.length - 1) r, hdrop]
    · cases rest with
      | nil => simp [ho, Spec.markOccurrences]
      | cons c r =>
        have hshort : r.length < fuel := by
          simp only [List.length_cons] at hfuel
          omega
        simp only [ho, Bool.false_eq_true, if_false, Spec.markOccurrences]
        rw [ih _ _ _ hshort]

/-- With the modelled engine over any case tables, the highlighter computes for every
non-empty query and every text the markup of the specification; in particular its
constructor call never raises. -/
theorem AppModule.highlight_eq_markOccurrences (lower : Str → Str) (upper : Nat → Nat)
    (q t : Str) (hq : q ≠ []) :
    AppModule.highlight (JS.engine lower upper) q t
      = some (Spec.markOccurrences (JS.canonicalize upper true) q 0 t) := by
  have hflags : JS.RegExp.parseFlags (JS.utf16 "ig") false false = .ok (true, true) := rfl
  simp only [AppModule.highlight, JS.engine, JS.RegExp.compile, hflags,
    JS.RegExp.parse_escaped_group, JS.RegExp.replace]
  rw [JS.RegExp.replaceLoop_escaped_group upper q hq _ _ _ _ (Nat.lt_succ_self _)]

/-- The markup of the specification on three texts: a dot in the query stands for itself,
occurrences are taken from the left without overlap, and letter case is ignored. -/
theorem Spec.markOccurrences_examples :
    Spec.markOccurrences (JS.canonicalize JS.toUpperUnit true) (JS.utf16 "a.b") 0
          (JS.utf16 "a.b and axb")
        = JS.utf16 "<mark>a.b</mark> and axb"
      ∧ Spec.markOccurrences (JS.canonicalize JS.toUpperUnit true) (JS.utf16 "aa") 0
          (JS.utf16 "aaa")
        = JS.utf16 "<mark>aa</mark>a"
      ∧ Spec.markOccurrences (JS.canonicalize JS.toUpperUnit true) (JS.utf16 "кре") 0
          (JS.utf16 "Креативний і кредо")
        = JS.utf16 "<mark>Кре</mark>ативний і <mark>кре</mark>до" := by
  decide

theorem AppModule.truncate_short (t : Str) (ht : t.length ≤ 240) :
    AppModule.truncate t 240 = t := by
  unfold AppModule.truncate
  cases t with
  | nil => rfl
  | cons c r =>
    have h : ¬ (c :: r).length > 240 := Nat.not_lt.mpr ht
    simp only [List.isEmpty_cons, Bool.false_eq_true, if_false, h]

/-- Without the escaping, the dot of the query would be read as a wildcard and `axb`
would be marked too. -/
theorem JS.RegExp.unescaped_dot_marks_axb :
    (JS.ecma.newRegExp (JS.utf16 "(a.b)") (JS.utf16 "ig")).map
        (fun re => JS.ecma.replace (JS.utf16 "a.b and axb") re (JS.utf16 "<mark>$1</mark>"))
      = .ok (JS.utf16 "<mark>a.b</mark> and <mark>axb</mark>") := rfl

theorem AppModule.plain_truncate (t : Str) (ht : AppModule.plain t = true) :
    AppModule.plain (AppModule.truncate t 240) = true := by
  have hdots : AppModule.plain (JS.utf16 "...") = true := by decide
  unfold AppModule.truncate
  split
  · rfl
  · split
    · simp only [AppModule.plain, List.all_append, Bool.and_eq_true] at ht hdots ⊢
      refine ⟨?_, hdots⟩
      rw [List.all_eq_true] at ht ⊢
      intro u hu
      exact ht u (List.mem_of_mem_take hu)
    · exact ht

/-- Claim C9 as stated fails on a text longer than 240 code units: the document below
(240 times `x`, then `a.b`) matches the query `a.b` and gets a card, but the card shows
the text cut to 240 code units and `...`, so the markup written by the highlighter marks
nothing, although the text of the document holds an occurrence of the query. -/
theorem long_text_occurrence_is_not_marked :
    AppModule.afterTimer JS.ecma
        [⟨JS.utf16 "note:1", JS.utf16 "t", List.replicate 240 120 ++ JS.utf16 "a.b"⟩]
        (JS.utf16 "a.b") (some (JS.utf16 "jquery"))
      = .cards [⟨JS.utf16 "t", .html (List.replicate 240 120 ++ JS.utf16 "..."),
          JS.utf16 "Джерело: note:1"⟩]
      ∧ Spec.markOccurrences (JS.canonicalize JS.toUpperUnit true) (JS.utf16 "a.b") 0
          (List.replicate 240 120 ++ JS.utf16 "a.b")
        = List.replicate 240 120 ++ JS.utf16 "<mark>a.b</mark>"
      ∧ List.replicate 240 120 ++ JS.utf16 "<mark>a.b</mark>"
        ≠ List.replicate 240 120 ++ JS.utf16 "..." := by
  set_option maxRecDepth 100000 in
  decide

/-- Claim C9, amended: in `jquery` mode, for every query that is not blank and every
matched document, the highlighter works on the text shown on the card of the document:
its text, cut to 240 code units and followed by `...` when it is longer. When that text
holds no `<`, no `&`, no carriage return and no NUL, the markup written to the card is
that text in which the stretches equal to the query up to letter case, the query taken as
a literal string, are wrapped in `<mark>` and `</mark>`, from the left and without
overlap, and nothing else is changed. Letter case is what the `i` flag of `RegExp`
ignores, for any case tables of the platform (`lower`, `upper`). A text of at most 240
code units is shown whole. The pattern is built from `escapeRegExp(q)` and reads as the
literal code units of `q`, so for `a.b` on `a.b and axb` only `a.b` is marked. -/
theorem jquery_mode_marks_literal_occurrences (lower : Str → Str) (upper : Nat → Nat)
    (docs : List AppModule.Doc) (input : Str) (hq : AppModule.query input ≠ []) :
    AppModule.afterTimer (JS.engine lower upper) docs input (some (JS.utf16 "jquery"))
        = (if (docs.filter
                (AppModule.includesTest (JS.engine lower upper) (AppModule.query input))).isEmpty
           then .notice (JS.utf16 "Нічого не знайдено")
           else .cards ((docs.filter
                (AppModule.includesTest (JS.engine lower upper) (AppModule.query input))).map
             (fun d => ⟨d.title,
               if AppModule.plain (AppModule.truncate d.text 240) then
                 .html (Spec.markOccurrences (JS.canonicalize upper true)
                   (AppModule.query input) 0 (AppModule.truncate d.text 240))
               else .reparsed,
               JS.utf16 "Джерело: " ++ d.id⟩)))
      ∧ (∀ t : Str, t.length ≤ 240 → AppModule.truncate t 240 = t)
      ∧ (∀ t : Str, AppModule.plain t = true →
          AppModule.plain (AppModule.truncate t 240) = true)
      ∧ JS.RegExp.parse
          (JS.utf16 "(" ++ AppModule.escapeRegExp (AppModule.query input) ++ JS.utf16 ")")
        = .ok (.seq (.group 1
            (JS.RegExp.mkSeq ((AppModule.query input).map JS.RegExp.Node.char).reverse))
            .empty, 1)
      ∧ AppModule.highlight JS.ecma (JS.utf16 "a.b") (JS.utf16 "a.b and axb")
        = some (JS.utf16 "<mark>a.b</mark> and axb") := by
  obtain ⟨h1, h2, h3, h4, h5, h6⟩ := AppModule.modes_distinct
  have hq' : (AppModule.query input).isEmpty = false := by
    cases h : AppModule.query input with
    | nil => exact absurd h hq
    | cons _ _ => rfl
  refine ⟨?_, AppModule.truncate_short, AppModule.plain_truncate,
    JS.RegExp.parse_escaped_group _, ?_⟩
  · have hs : AppModule.search (JS.engine lower upper) docs input (some (JS.utf16 "jquery"))
        = .rendered (docs.filter
            (AppModule.includesTest (JS.engine lower upper) (AppModule.query input))) := by
      simp only [AppModule.search, AppModule.modeOf, h5, hq', Bool.false_eq_true, if_false,
        if_true, h2, h3]
    simp only [AppModule.afterTimer, AppModule.onSearchClick, hs, AppModule.renderResults]
    cases hf : (docs.filter
        (AppModule.includesTest (JS.engine lower upper) (AppModule.query input))).isEmpty
    · simp only [Bool.false_eq_true, if_false, AppModule.modeOf, h5, hq', and_self, if_true,
        List.map_map, AppModule.View.cards.injEq]
      apply List.map_congr_left
      intro d _
      simp only [Function.comp, AppModule.highlightCard,
        AppModule.highlight_eq_markOccurrences lower upper _ _ hq]
      split <;> rfl
    · simp only [if_true]
  · show AppModule.highlight (JS.engine JS.toLowerCase JS.toUpperUnit) _ _ = _
    rw [AppModule.highlight_eq_markOccurrences _ _ _ _ (by decide)]
    decide

/-- The query `a.b`, typed with blanks around it, on two stored notes, one of them
holding `axb` only. -/
theorem jquery_mode_marks_literal_occurrences_witness :
    AppModule.query (JS.utf16 " a.b ") ≠ []
      ∧ AppModule.afterTimer (JS.engine JS.toLowerCase JS.toUpperUnit)
          [⟨JS.utf16 "note:2", JS.utf16 "first", JS.utf16 "a.b and axb"⟩,
           ⟨JS.utf16 "note:1", JS.utf16 "second", JS.utf16 "only axb"⟩]
          (JS.utf16 " a.b ") (some (JS.utf16 "jquery"))
        = .cards [⟨JS.utf16 "first", .html (JS.utf16 "<mark>a.b</mark> and axb"),
            JS.utf16 "Джерело: note:2"⟩] :=
  ⟨by decide,
    (jquery_mode_marks_literal_occurrences JS.toLowerCase JS.toUpperUnit
      [⟨JS.utf16 "note:2", JS.utf16 "first", JS.utf16 "a.b and axb"⟩,
       ⟨JS.utf16 "note:1", JS.utf16 "second", JS.utf16 "only axb"⟩]
      (JS.utf16 " a.b ") (by decide)).1.trans (by decide)⟩
